import Mathlib

/-!
# synopsys-init: readiness gate (`main.go`)

A shallow embedding of the three stage functions of `main.go`
(`validateHTTPReadinessCheckCommands`, `validatePostgresDBConnection`,
`validateMongoDBConnection`) and of the three retry loops of `rootCmd.RunE`.

Modelling conventions.

* The package-level variables become the record `Config`.  The only variable a
  stage function writes is `postgresDBSSLMode`, so the Postgres stage returns
  the updated record.
* Every call that leaves the process (HTTP GET, body read, `sql.Open`,
  `Ping`, `Exec`, `RowsAffected`, `mongo.Connect`, `Ping`) takes its outcome
  from an environment record; the outcome of the `k`-th call of one kind in an
  invocation is looked up at index `k`, so every deterministic behaviour of the
  outside world is covered.
* Each stage function returns its Go result (`none` is `nil`) together with the
  list of effects it performed, in order.  Deferred calls are kept on a stack
  and appended to the effects at every `return`.
* Go strings are modelled as sequences of Unicode code points (valid UTF-8).
* Log output is not part of the model.
-/

namespace SynopsysInit

/-! ## Data model -/

/-- Package-level variables of `main.go`, lines 43-57 (without `namespace`,
which is only read by `init`). -/
structure Config where
  httpReadinessURLs : String
  postgresDBHost : String
  postgresDBPort : Int
  postgresDB : String
  postgresDBUser : String
  postgresDBPassword : String
  postgresDBSSLMode : String
  mongoDBHost : String
  mongoDBPort : Int
  mongoDB : String
  mongoDBUser : String
  mongoDBPassword : String
  deriving DecidableEq, Repr

/-- Initial values of the variables (lines 43-57) after `init` (lines 236-241)
has filled in the hosts from the namespace `ns`. -/
def defaultConfig (ns : String) : Config :=
  let ns1 := if ns.length = 0 then "default" else ns
  { httpReadinessURLs := ""
    postgresDBHost := "postgresql." ++ ns1 ++ ".svc.cluster.local"
    postgresDBPort := 5432
    postgresDB := "postgres"
    postgresDBUser := ""
    postgresDBPassword := ""
    postgresDBSSLMode := "disable"
    mongoDBHost := "mongodb." ++ ns1 ++ ".svc.cluster.local"
    mongoDBPort := 27017
    mongoDB := ""
    mongoDBUser := ""
    mongoDBPassword := "" }

/-- Line 60. -/
def postgresDefaultQuery : String :=
  "SELECT datname FROM pg_database WHERE datistemplate = false"

/-- Effects of a stage function, in the order the Go code performs them.
`mongoDisconnect` stands for `(*mongo.Client).Disconnect`, the driver call that
releases a client; it is listed so that traces can be asked about it. -/
inductive Event where
  /-- `httpClient.Get(url)`; `ok` tells whether it returned without error. -/
  | httpGet (url : String) (ok : Bool)
  /-- `ioutil.ReadAll(resp.Body)` on the response of GET number `k`. -/
  | httpReadBody (k : Nat) (ok : Bool)
  /-- `resp.Body.Close()` on the response of GET number `k`. -/
  | httpBodyClose (k : Nat)
  /-- `sql.Open("postgres", dsn)`. -/
  | sqlOpen (dsn : String) (ok : Bool)
  /-- `db.Ping()`. -/
  | sqlPing (ok : Bool)
  /-- `db.Exec(query)`. -/
  | sqlExec (query : String) (ok : Bool)
  /-- `result.RowsAffected()`. -/
  | sqlRowsAffected (ok : Bool)
  /-- `db.Close()`. -/
  | sqlClose
  /-- `mongo.Connect(ctx, ApplyURI(uri))`. -/
  | mongoConnect (uri : String) (ok : Bool)
  /-- `client.Ping(ctx, nil)`. -/
  | mongoPing (ok : Bool)
  /-- `client.Disconnect(ctx)`. -/
  | mongoDisconnect
  /-- `time.Sleep(seconds * time.Second)`. -/
  | sleep (seconds : Nat)
  deriving DecidableEq, Repr

/-- The non-nil errors a stage function can return, one constructor per
`return` statement that returns one; `cause` is the text of the wrapped
error. -/
inductive StageError where
  /-- Line 129. -/
  | getFailed (cause : String)
  /-- Line 136. -/
  | readingResponseFailed (cause : String)
  /-- Lines 166 and 214. -/
  | connectionFailed (cause : String)
  /-- Lines 180 and 225. -/
  | pingFailed (cause : String)
  /-- Line 188. -/
  | execFailed (cause : String)
  /-- Line 193: the error of `RowsAffected`, returned as it is. -/
  | rowsAffectedError (cause : String)
  /-- Line 197. -/
  | rowsAffectedZero
  deriving DecidableEq, Repr

/-- Text of the error, as built by `fmt.Errorf` at the `return`. -/
def StageError.message : StageError → String
  | .getFailed e => "get failed for " ++ e
  | .readingResponseFailed e => "reading response failed for " ++ e
  | .connectionFailed e => "connection failed for " ++ e
  | .pingFailed e => "ping failed for " ++ e
  | .execFailed e => "exec statement failed for " ++ e
  | .rowsAffectedError e => e
  | .rowsAffectedZero => "rows affected 0 for the query: " ++ postgresDefaultQuery

/-- Result of one invocation of a stage function: the returned `error`
(`none` is `nil`) and the effects performed. -/
structure StageRun where
  err : Option StageError
  trace : List Event
  deriving DecidableEq, Repr

/-! ## Library functions used by the stages -/

/-- Go `unicode.IsSpace`. -/
def isSpace (c : Char) : Bool :=
  let n := c.toNat
  n = 0x09 || n = 0x0A || n = 0x0B || n = 0x0C || n = 0x0D || n = 0x20 ||
  n = 0x85 || n = 0xA0 || n = 0x1680 || (0x2000 ≤ n && n ≤ 0x200A) ||
  n = 0x2028 || n = 0x2029 || n = 0x202F || n = 0x205F || n = 0x3000

/-- Go `strings.TrimSpace`: drop leading and trailing white space. -/
def trimSpace (s : String) : String :=
  String.mk ((s.data.dropWhile isSpace).reverse.dropWhile isSpace).reverse

/-- Segments of a rune sequence between occurrences of `sep`. -/
def splitChars (sep : Char) : List Char → List (List Char)
  | [] => [[]]
  | c :: cs =>
    if c = sep then [] :: splitChars sep cs
    else
      match splitChars sep cs with
      | [] => [[c]]
      | seg :: segs => (c :: seg) :: segs

/-- Go `strings.Split(s, sep)` for a separator of one rune. -/
def split (s : String) (sep : Char) : List String :=
  (splitChars sep s.data).map String.mk

/-- Go `unicode.ToLower` on one rune.  ASCII capitals are lowered; the two
runes outside ASCII whose lower case is an ASCII letter (U+0130 and U+212A)
are mapped to it.  The remaining case tables of the Go library are not
reproduced: every other rune outside ASCII is returned as it is, and its Go
lower case is a rune outside ASCII as well. -/
def toLowerRune (c : Char) : Char :=
  if 'A'.toNat ≤ c.toNat ∧ c.toNat ≤ 'Z'.toNat then Char.ofNat (c.toNat + 32)
  else if c.toNat = 0x130 then 'i'
  else if c.toNat = 0x212A then 'k'
  else c

/-- Go `strings.ToLower`. -/
def toLower (s : String) : String :=
  String.mk (s.data.map toLowerRune)

/-- Go `fmt.Sprintf("%d", n)`. -/
def fmtInt (n : Int) : String := toString n

/-! ## Environments -/

/-- Outcome of `ioutil.ReadAll(resp.Body)`: the body, or what was read so far
and an error. -/
inductive BodyRead where
  | ok (body : String)
  | fail (readSoFar : String) (err : String)
  deriving DecidableEq, Repr

/-- Outcome of `httpClient.Get`: an error, or a response with its status code
and what reading its body will give. -/
inductive GetResult where
  | transportError (err : String)
  | response (status : Int) (body : BodyRead)
  deriving DecidableEq, Repr

/-- What the outside world answers during one invocation of the HTTP stage:
`get k url` is the outcome of GET number `k` (from 0), issued to `url`. -/
structure HttpEnv where
  get : Nat → String → GetResult

/-- Outcome of `db.Exec`: an error, or a result whose `RowsAffected` gives an
error or a row count. -/
inductive ExecResult where
  | error (err : String)
  | result (rowsAffected : Except String Int)

/-- What the outside world answers during one invocation of the Postgres
stage; `ping k` is the error of `db.Ping()` number `k` (from 0), `none` for
`nil`. -/
structure PgEnv where
  sqlOpen : String → Option String
  ping : Nat → Option String
  exec : String → ExecResult

/-- What the outside world answers during one invocation of the Mongo stage. -/
structure MongoEnv where
  connect : String → Option String
  ping : Nat → Option String

/-! ## Stage functions -/

/-- Target list of the HTTP stage: line 113 followed by the `TrimSpace` of
line 127. -/
def httpTargets (urls : String) : List String :=
  (split urls ',').map trimSpace

/-- Body of the `range` loop of lines 115-139, from GET number `k` on, over the
segments still to visit.  `deferred` is the stack of deferred
`resp.Body.Close()` calls (line 131), run at every `return`. -/
def httpCheckLoop (env : HttpEnv) : List String → Nat → List Event → StageRun
  | [], _, deferred => ⟨none, deferred⟩
  | httpReadinessURL :: rest, k, deferred =>
    let url := trimSpace httpReadinessURL
    match env.get k url with
    | .transportError e => ⟨some (.getFailed e), Event.httpGet url false :: deferred⟩
    | .response _ body =>
      let deferred1 := Event.httpBodyClose k :: deferred
      match body with
      | .fail _ e =>
        ⟨some (.readingResponseFailed e),
          Event.httpGet url true :: Event.httpReadBody k false :: deferred1⟩
      | .ok _ =>
        let r := httpCheckLoop env rest (k + 1) deferred1
        ⟨r.err, Event.httpGet url true :: Event.httpReadBody k true :: r.trace⟩

/-- Lines 110-145. -/
def validateHTTPReadinessCheckCommands (cfg : Config) (env : HttpEnv) : StageRun :=
  if cfg.httpReadinessURLs.length ≠ 0 then
    httpCheckLoop env (split cfg.httpReadinessURLs ',') 0 []
  else
    ⟨none, []⟩

/-- Lines 151-160: the value of `postgresDBSSLMode` after the default for the
empty string and the `switch`. -/
def normalizeSSLMode (mode : String) : String :=
  let mode1 := if mode.length = 0 then "disable" else mode
  if toLower mode1 = "true" then "require"
  else if toLower mode1 = "false" then "disable"
  else mode1

/-- Line 161: the connection string. -/
def psqlInfo (cfg : Config) : String :=
  "host=" ++ cfg.postgresDBHost ++ " port=" ++ fmtInt cfg.postgresDBPort ++
  " user=" ++ cfg.postgresDBUser ++ " password=" ++ cfg.postgresDBPassword ++
  " dbname=" ++ cfg.postgresDB ++ " sslmode=" ++ cfg.postgresDBSSLMode ++
  " connect_timeout=10"

/-- The ping loops of lines 171-183 and 218-228, which differ only in the ping
call (`ev` is its effect): `for i := 0; i < 10; i++`, from index `i` on.  The
first argument bounds the number of iterations still allowed; 10 is enough
from `i = 0`.  The result is `some e` when the loop leaves the function with
`return e`, `none` when control goes on after the loop. -/
def pingLoop (ping : Nat → Option String) (ev : Bool → Event) :
    Nat → Nat → Option StageError × List Event
  | 0, _ => (none, [])
  | fuel + 1, i =>
    if i < 10 then
      match ping i with
      | none => (none, [ev true])
      | some e =>
        if i = 10 then (some (.pingFailed e), [ev false])
        else
          let r := pingLoop ping ev fuel (i + 1)
          (r.1, ev false :: Event.sleep 5 :: r.2)
    else (none, [])

/-- Lines 185-198, after the ping loop. -/
def pgVerify (env : PgEnv) : Option StageError × List Event :=
  match env.exec postgresDefaultQuery with
  | .error e => (some (.execFailed e), [Event.sqlExec postgresDefaultQuery false])
  | .result (.error e) =>
    (some (.rowsAffectedError e),
      [Event.sqlExec postgresDefaultQuery true, Event.sqlRowsAffected false])
  | .result (.ok nbRow) =>
    if nbRow = 0 then
      (some .rowsAffectedZero,
        [Event.sqlExec postgresDefaultQuery true, Event.sqlRowsAffected true])
    else
      (none, [Event.sqlExec postgresDefaultQuery true, Event.sqlRowsAffected true])

/-- Lines 147-204.  Returns the variables after the call as well, since
lines 152-159 assign `postgresDBSSLMode`. -/
def validatePostgresDBConnection (cfg : Config) (env : PgEnv) : Config × StageRun :=
  if cfg.postgresDBUser.length ≠ 0 ∧ cfg.postgresDBPassword.length ≠ 0 then
    let cfg1 := { cfg with postgresDBSSLMode := normalizeSSLMode cfg.postgresDBSSLMode }
    let dsn := psqlInfo cfg1
    match env.sqlOpen dsn with
    | some e => (cfg1, ⟨some (.connectionFailed e), [Event.sqlOpen dsn false]⟩)
    | none =>
      -- `defer db.Close()`: appended at each return below
      match pingLoop env.ping Event.sqlPing 10 0 with
      | (some e, pings) => (cfg1, ⟨some e, Event.sqlOpen dsn true :: pings ++ [Event.sqlClose]⟩)
      | (none, pings) =>
        let v := pgVerify env
        (cfg1, ⟨v.1, Event.sqlOpen dsn true :: pings ++ v.2 ++ [Event.sqlClose]⟩)
  else
    (cfg, ⟨none, []⟩)

/-- Line 210: the connection URI. -/
def mongoURI (cfg : Config) : String :=
  "mongodb://" ++ cfg.mongoDBUser ++ ":" ++ cfg.mongoDBPassword ++ "@" ++
  cfg.mongoDBHost ++ ":" ++ fmtInt cfg.mongoDBPort ++ "/" ++ cfg.mongoDB

/-- Lines 206-234.  No call is deferred in this function. -/
def validateMongoDBConnection (cfg : Config) (env : MongoEnv) : StageRun :=
  if cfg.mongoDB.length ≠ 0 ∧ cfg.mongoDBUser.length ≠ 0 ∧ cfg.mongoDBPassword.length ≠ 0 then
    let uri := mongoURI cfg
    match env.connect uri with
    | some e => ⟨some (.connectionFailed e), [Event.mongoConnect uri false]⟩
    | none =>
      match pingLoop env.ping Event.mongoPing 10 0 with
      | (some e, pings) => ⟨some e, Event.mongoConnect uri true :: pings⟩
      | (none, pings) => ⟨none, Event.mongoConnect uri true :: pings⟩
  else
    ⟨none, []⟩

/-! ## The retry loops of `RunE` -/

/-- The three stages, in the order of `RunE`. -/
inductive Stage where
  | http
  | postgres
  | mongo
  deriving DecidableEq, Repr

/-- The outside world during a run of `RunE`: the environment met by
invocation number `j` (from 0) of each stage function. -/
structure World where
  http : Nat → HttpEnv
  postgres : Nat → PgEnv
  mongo : Nat → MongoEnv

/-- Invocation number `j` of the stage function of stage `s`: the variables
after the call and the result. -/
def runStage (w : World) (s : Stage) (j : Nat) (cfg : Config) : Config × StageRun :=
  match s with
  | .http => (cfg, validateHTTPReadinessCheckCommands cfg (w.http j))
  | .postgres => validatePostgresDBConnection cfg (w.postgres j)
  | .mongo => (cfg, validateMongoDBConnection cfg (w.mongo j))

/-- What `RunE` itself does: it invokes a stage function (the invocation's
result and effects are recorded), or it sleeps. -/
inductive RunEvent where
  | invoke (s : Stage) (run : StageRun)
  | sleep (seconds : Nat)
  deriving DecidableEq, Repr

/-- One `for { ... }` loop of `RunE` (lines 77-84, 87-94, 97-104; the three
differ only in the stage function and the log text), from invocation number
`j` on.  The loop has no bound of its own: the first argument is the number of
iterations allowed.  The first component is `some cfg` when the loop was left
by `break`, with the variables at that point, and `none` when the allowance
ran out first; the second component lists what was done. -/
def retryLoop (w : World) (s : Stage) : Nat → Nat → Config → Option Config × List RunEvent
  | 0, _, _ => (none, [])
  | fuel + 1, j, cfg =>
    let r := runStage w s j cfg
    match r.2.err with
    | none => (some r.1, [RunEvent.invoke s r.2])
    | some _ =>
      let rest := retryLoop w s fuel (j + 1) r.1
      (rest.1, RunEvent.invoke s r.2 :: RunEvent.sleep 5 :: rest.2)

/-- Lines 75-107, every loop being allowed `fuel` iterations.  The first
component is `some none` when `RunE` returned (`return nil`, line 106) and
`none` when a loop used up its allowance. -/
def RunE (w : World) (fuel : Nat) (cfg : Config) : Option (Option StageError) × List RunEvent :=
  match retryLoop w .http fuel 0 cfg with
  | (none, t1) => (none, t1)
  | (some cfg1, t1) =>
    match retryLoop w .postgres fuel 0 cfg1 with
    | (none, t2) => (none, t1 ++ t2)
    | (some cfg2, t2) =>
      match retryLoop w .mongo fuel 0 cfg2 with
      | (none, t3) => (none, t1 ++ t2 ++ t3)
      | (some _, t3) => (some none, t1 ++ t2 ++ t3)

/-! ## Reading traces -/

/-- URLs of the GETs issued, in order. -/
def gets : List Event → List String
  | [] => []
  | .httpGet url _ :: t => url :: gets t
  | _ :: t => gets t

/-- Outcomes of the `db.Ping()` calls, in order. -/
def sqlPings : List Event → List Bool
  | [] => []
  | .sqlPing ok :: t => ok :: sqlPings t
  | _ :: t => sqlPings t

/-- Outcomes of the `client.Ping` calls, in order. -/
def mongoPings : List Event → List Bool
  | [] => []
  | .mongoPing ok :: t => ok :: mongoPings t
  | _ :: t => mongoPings t

/-- The GET returned without transport error and its body was read without
error. -/
def GetResult.succeeded : GetResult → Bool
  | .response _ (.ok _) => true
  | _ => false

/-- The same outcome with the status code replaced by `f status`. -/
def GetResult.mapStatus (f : Int → Int) : GetResult → GetResult
  | .transportError e => .transportError e
  | .response st body => .response (f st) body

/-- Equality of two strings up to the case of ASCII letters. -/
def eqIgnoreCase (s t : String) : Bool :=
  s.data.map Char.toLower = t.data.map Char.toLower

/-- Number of stage invocations in a trace of `RunE`. -/
def invocations : List RunEvent → Nat
  | [] => 0
  | .invoke _ _ :: t => invocations t + 1
  | .sleep _ :: t => invocations t

/-- Durations of the sleeps `RunE` itself performs, in order. -/
def retrySleeps : List RunEvent → List Nat
  | [] => []
  | .invoke _ _ :: t => retrySleeps t
  | .sleep d :: t => d :: retrySleeps t

/-- Position of a stage in the order of `RunE`. -/
def Stage.rank : Stage → Nat
  | .http => 0
  | .postgres => 1
  | .mongo => 2

/-- The variables as they are before invocation number `j` of the stage
function of `s`, when the loop starts from `cfg` and invocations `0 .. j-1`
have taken place. -/
def stateBefore (w : World) (s : Stage) (cfg : Config) : Nat → Config
  | 0 => cfg
  | j + 1 => (runStage w s j (stateBefore w s cfg j)).1

/-- Result of invocation number `j` of the stage function of `s` in the loop
started from `cfg`. -/
def attempt (w : World) (s : Stage) (cfg : Config) (j : Nat) : StageRun :=
  (runStage w s j (stateBefore w s cfg j)).2

/-- Trace of a retry loop in which invocations `j .. j+c-1` of the stage
function fail and invocation `j+c` succeeds: each failed invocation followed by
the sleep of 5 seconds, then the successful invocation. -/
def retrySegment (w : World) (s : Stage) (cfg : Config) : Nat → Nat → List RunEvent
  | 0, j => [RunEvent.invoke s (attempt w s cfg j)]
  | c + 1, j =>
    RunEvent.invoke s (attempt w s cfg j) :: RunEvent.sleep 5 :: retrySegment w s cfg c (j + 1)

/-- Progress of `RunE` through its stages along a trace: starting with the
stage of rank `p` pending, an invocation must be of the pending stage, and the
next stage becomes pending once an invocation has returned `nil`.  The result
is the rank pending at the end, or `none` if some invocation is out of turn. -/
def phaseAfter : Nat → List RunEvent → Option Nat
  | p, [] => some p
  | p, .sleep _ :: t => phaseAfter p t
  | p, .invoke s run :: t =>
    if s.rank = p then phaseAfter (if run.err = none then p + 1 else p) t else none

/-! ## Concrete configurations and environments -/

/-- Postgres stage configured: user `u`, password `p`, given SSL mode. -/
def pgConfig (mode : String) : Config :=
  { defaultConfig "" with
    postgresDBUser := "u", postgresDBPassword := "p", postgresDBSSLMode := mode }

/-- Mongo stage configured: database `db`, user `u`, password `p`. -/
def mongoConfig : Config :=
  { defaultConfig "" with mongoDB := "db", mongoDBUser := "u", mongoDBPassword := "p" }

/-- Both database stages configured. -/
def dbConfig : Config :=
  { defaultConfig "" with
    postgresDBUser := "u", postgresDBPassword := "p",
    mongoDB := "db", mongoDBUser := "u", mongoDBPassword := "p" }

/-- HTTP stage configured with the given URL list. -/
def httpConfig (urls : String) : Config :=
  { defaultConfig "" with httpReadinessURLs := urls }

/-- Open succeeds, every ping is refused, the query reports `rows` rows. -/
def pgNeverPingable (rows : Int) : PgEnv :=
  { sqlOpen := fun _ => none
    ping := fun _ => some "connection refused"
    exec := fun _ => .result (.ok rows) }

/-- Open succeeds, the first `fails` pings are refused and the next one
succeeds, the query reports `rows` rows. -/
def pgPingableAfter (fails : Nat) (rows : Int) : PgEnv :=
  { sqlOpen := fun _ => none
    ping := fun k => if k < fails then some "connection refused" else none
    exec := fun _ => .result (.ok rows) }

/-- Connect succeeds, every ping fails. -/
def mongoNeverPingable : MongoEnv :=
  { connect := fun _ => none
    ping := fun _ => some "server selection timeout" }

/-- Connect succeeds, the first `fails` pings fail and the next one succeeds. -/
def mongoPingableAfter (fails : Nat) : MongoEnv :=
  { connect := fun _ => none
    ping := fun k => if k < fails then some "server selection timeout" else none }

/-- Every GET is answered with the given status and body `error`. -/
def httpAlways (status : Int) : HttpEnv :=
  { get := fun _ _ => .response status (.ok "error") }

/-- GET number `k` fails at the transport level, every other GET is answered
with status 200. -/
def httpFailingAt (k : Nat) : HttpEnv :=
  { get := fun i _ => if i = k then .transportError "connection refused"
                      else .response 200 (.ok "ok") }

/-- A world in which invocations `0 .. fails-1` of the HTTP stage cannot reach
their first target and later ones are answered; the database stages always
find their servers up. -/
def worldHttpUpAfter (fails : Nat) : World :=
  { http := fun j => if j < fails then httpFailingAt 0 else httpAlways 200
    postgres := fun _ => pgPingableAfter 0 1
    mongo := fun _ => mongoPingableAfter 0 }

/-! ## Auxiliary facts -/

theorem length_eq_zero_iff (s : String) : s.length = 0 ↔ s = "" := by
  cases s with
  | mk d =>
    constructor
    · intro h
      have hd : d = [] := List.length_eq_zero.mp h
      subst hd
      rfl
    · intro h
      rw [h]
      rfl

theorem toLowerRune_eq_iff (c x : Char) (hi : x ≠ 'i') (hk : x ≠ 'k')
    (h1 : x.toNat ≠ 0x130) (h2 : x.toNat ≠ 0x212A) :
    toLowerRune c = x ↔ c.toLower = x := by
  unfold toLowerRune Char.toLower
  by_cases hu : 'A'.toNat ≤ c.toNat ∧ c.toNat ≤ 'Z'.toNat
  · have hu2 : c.toNat ≥ 65 ∧ c.toNat ≤ 90 := hu
    simp only [hu, hu2, and_self, if_true]
  · have hu2 : ¬ (c.toNat ≥ 65 ∧ c.toNat ≤ 90) := hu
    simp only [hu, hu2, if_false]
    by_cases ha : c.toNat = 0x130
    · simp only [ha, if_true]
      constructor
      · intro h; exact absurd h.symm hi
      · intro h; rw [← h] at h1; exact absurd ha h1
    · simp only [ha, if_false]
      by_cases hb : c.toNat = 0x212A
      · simp only [hb, if_true]
        constructor
        · intro h; exact absurd h.symm hk
        · intro h; rw [← h] at h2; exact absurd hb h2
      · simp only [hb, if_false]

theorem map_eq_iff_of_pointwise {f g : Char → Char} :
    ∀ (l t : List Char), (∀ c, ∀ x ∈ t, (f c = x ↔ g c = x)) →
      (l.map f = t ↔ l.map g = t)
  | [], t, _ => by simp
  | c :: l, [], _ => by simp
  | c :: l, x :: t, h => by
    have hx := h c x (List.mem_cons_self _ _)
    have ht := map_eq_iff_of_pointwise l t (fun c y hy => h c y (List.mem_cons_of_mem _ hy))
    simp only [List.map_cons, List.cons.injEq]
    rw [hx, ht]

theorem toLower_eq_true_iff (s : String) : toLower s = "true" ↔ eqIgnoreCase s "true" = true := by
  unfold toLower eqIgnoreCase
  have h : (s.data.map toLowerRune = "true".data ↔ s.data.map Char.toLower = "true".data) := by
    apply map_eq_iff_of_pointwise
    intro c x hx
    have hx2 : x = 't' ∨ x = 'r' ∨ x = 'u' ∨ x = 'e' := by simpa using hx
    rcases hx2 with rfl | rfl | rfl | rfl <;>
      exact toLowerRune_eq_iff c _ (by decide) (by decide) (by decide) (by decide)
  have e : ("true".data.map Char.toLower) = "true".data := by decide
  rw [decide_eq_true_iff, e, ← h]
  constructor
  · intro h2; exact congrArg String.data h2
  · intro h2; exact congrArg String.mk h2

theorem toLower_eq_false_iff (s : String) :
    toLower s = "false" ↔ eqIgnoreCase s "false" = true := by
  unfold toLower eqIgnoreCase
  have h : (s.data.map toLowerRune = "false".data ↔ s.data.map Char.toLower = "false".data) := by
    apply map_eq_iff_of_pointwise
    intro c x hx
    have hx2 : x = 'f' ∨ x = 'a' ∨ x = 'l' ∨ x = 's' ∨ x = 'e' := by simpa using hx
    rcases hx2 with rfl | rfl | rfl | rfl | rfl <;>
      exact toLowerRune_eq_iff c _ (by decide) (by decide) (by decide) (by decide)
  have e : ("false".data.map Char.toLower) = "false".data := by decide
  rw [decide_eq_true_iff, e, ← h]
  constructor
  · intro h2; exact congrArg String.data h2
  · intro h2; exact congrArg String.mk h2

theorem not_active_pg (cfg : Config)
    (h : cfg.postgresDBUser = "" ∨ cfg.postgresDBPassword = "") :
    ¬ (cfg.postgresDBUser.length ≠ 0 ∧ cfg.postgresDBPassword.length ≠ 0) := by
  rintro ⟨h1, h2⟩
  rcases h with h | h
  · exact h1 ((length_eq_zero_iff _).mpr h)
  · exact h2 ((length_eq_zero_iff _).mpr h)

theorem active_pg (cfg : Config)
    (hu : cfg.postgresDBUser ≠ "") (hp : cfg.postgresDBPassword ≠ "") :
    cfg.postgresDBUser.length ≠ 0 ∧ cfg.postgresDBPassword.length ≠ 0 :=
  ⟨fun h => hu ((length_eq_zero_iff _).mp h), fun h => hp ((length_eq_zero_iff _).mp h)⟩

theorem active_mongo (cfg : Config)
    (hd : cfg.mongoDB ≠ "") (hu : cfg.mongoDBUser ≠ "") (hp : cfg.mongoDBPassword ≠ "") :
    cfg.mongoDB.length ≠ 0 ∧ cfg.mongoDBUser.length ≠ 0 ∧ cfg.mongoDBPassword.length ≠ 0 :=
  ⟨fun h => hd ((length_eq_zero_iff _).mp h), fun h => hu ((length_eq_zero_iff _).mp h),
    fun h => hp ((length_eq_zero_iff _).mp h)⟩

/-! ## Skip property -/

/-- C3 (skip property).  (i) With `httpReadinessURLs` empty the HTTP stage
returns `nil`; (ii) with `postgresDBUser` or `postgresDBPassword` empty the
Postgres stage returns `nil` (and leaves the variables as they are); (iii) with
one of `mongoDB`, `mongoDBUser`, `mongoDBPassword` empty the Mongo stage
returns `nil`.  In each case the invocation performs no effect at all, hence no
network operation and no sleep, whatever the environment and the other
fields. -/
theorem skip_property (cfg : Config) :
    (cfg.httpReadinessURLs = "" →
      ∀ env, validateHTTPReadinessCheckCommands cfg env = ⟨none, []⟩) ∧
    (cfg.postgresDBUser = "" ∨ cfg.postgresDBPassword = "" →
      ∀ env, validatePostgresDBConnection cfg env = (cfg, ⟨none, []⟩)) ∧
    (cfg.mongoDB = "" ∨ cfg.mongoDBUser = "" ∨ cfg.mongoDBPassword = "" →
      ∀ env, validateMongoDBConnection cfg env = ⟨none, []⟩) := by
  refine ⟨?_, ?_, ?_⟩
  · intro h env
    unfold validateHTTPReadinessCheckCommands
    rw [if_neg]
    exact fun hne => hne ((length_eq_zero_iff _).mpr h)
  · intro h env
    unfold validatePostgresDBConnection
    rw [if_neg (not_active_pg cfg h)]
  · intro h env
    unfold validateMongoDBConnection
    rw [if_neg]
    rintro ⟨h1, h2, h3⟩
    rcases h with h | h | h
    · exact h1 ((length_eq_zero_iff _).mpr h)
    · exact h2 ((length_eq_zero_iff _).mpr h)
    · exact h3 ((length_eq_zero_iff _).mpr h)

/-- C3 at concrete inputs: the default configuration has all three stages
unconfigured; environments in which every call would fail are never
consulted. -/
theorem skip_property_witness :
    validateHTTPReadinessCheckCommands (defaultConfig "") (httpFailingAt 0) = ⟨none, []⟩ ∧
    validatePostgresDBConnection (defaultConfig "") (pgNeverPingable 0)
      = (defaultConfig "", ⟨none, []⟩) ∧
    validateMongoDBConnection (defaultConfig "") mongoNeverPingable = ⟨none, []⟩ :=
  ⟨(skip_property (defaultConfig "")).1 (by decide) _,
   (skip_property (defaultConfig "")).2.1 (Or.inl (by decide)) _,
   (skip_property (defaultConfig "")).2.2 (Or.inl (by decide)) _⟩

/-! ## The ping loop -/

theorem pingLoop_fst (ping : Nat → Option String) (ev : Bool → Event) :
    ∀ fuel i, (pingLoop ping ev fuel i).1 = none := by
  intro fuel
  induction fuel with
  | zero => intro i; rfl
  | succ fuel ih =>
    intro i
    unfold pingLoop
    by_cases hi : i < 10
    · rw [if_pos hi]
      cases hp : ping i with
      | none => rfl
      | some e =>
        have hne : ¬ i = 10 := by omega
        simp only [if_neg hne]
        exact ih (i + 1)
    · rw [if_neg hi]

/-- Ten iterations are all the loop can make from index 0: a larger allowance
gives the same result. -/
theorem pingLoop_fuel_enough (ping : Nat → Option String) (ev : Bool → Event) :
    ∀ fuel i extra, 10 ≤ i + fuel →
      pingLoop ping ev (fuel + extra) i = pingLoop ping ev fuel i := by
  intro fuel
  induction fuel with
  | zero =>
    intro i extra h
    cases extra with
    | zero => rfl
    | succ extra =>
      have hi : ¬ i < 10 := by omega
      simp only [Nat.zero_add]
      unfold pingLoop
      rw [if_neg hi]
  | succ fuel ih =>
    intro i extra h
    have e : fuel + 1 + extra = (fuel + extra) + 1 := by omega
    rw [e]
    unfold pingLoop
    by_cases hi : i < 10
    · rw [if_pos hi, if_pos hi]
      cases hp : ping i with
      | none => rfl
      | some e =>
        have hne : ¬ i = 10 := by omega
        simp only [if_neg hne]
        rw [ih (i + 1) extra (by omega)]
    · rw [if_neg hi, if_neg hi]

section PingLoopOutcomes

variable (ping : Nat → Option String) (ev : Bool → Event) (sel : List Event → List Bool)
variable (hnil : sel [] = []) (hev : ∀ b t, sel (ev b :: t) = b :: sel t)
variable (hsleep : ∀ d t, sel (Event.sleep d :: t) = sel t)

include hnil hev hsleep

theorem pingLoop_outcomes_length :
    ∀ fuel i, (sel (pingLoop ping ev fuel i).2).length ≤ fuel := by
  intro fuel
  induction fuel with
  | zero => intro i; simp [pingLoop, hnil]
  | succ fuel ih =>
    intro i
    unfold pingLoop
    by_cases hi : i < 10
    · rw [if_pos hi]
      cases hp : ping i with
      | none => simp [hev, hnil]
      | some e =>
        have hne : ¬ i = 10 := by omega
        simp only [if_neg hne, hev, hsleep, List.length_cons]
        exact Nat.succ_le_succ (ih (i + 1))
    · rw [if_neg hi]; simp [hnil]

theorem pingLoop_stops_at_success :
    ∀ fuel i pre post, sel (pingLoop ping ev fuel i).2 = pre ++ true :: post → post = [] := by
  intro fuel
  induction fuel with
  | zero =>
    intro i pre post h
    simp [pingLoop, hnil] at h
  | succ fuel ih =>
    intro i pre post h
    unfold pingLoop at h
    by_cases hi : i < 10
    · rw [if_pos hi] at h
      cases hp : ping i with
      | none =>
        simp only [hp, hev, hnil] at h
        cases pre with
        | nil => simpa using h.symm
        | cons a pre => simp at h
      | some e =>
        have hne : ¬ i = 10 := by omega
        simp only [hp, if_neg hne, hev, hsleep] at h
        cases pre with
        | nil => simp at h
        | cons a pre =>
          simp only [List.cons_append, List.cons.injEq] at h
          exact ih (i + 1) pre post h.2
    · rw [if_neg hi] at h
      simp [hnil] at h

theorem pingLoop_first_success :
    ∀ fuel i k, i ≤ k → k < 10 → k < i + fuel →
      (∀ j, i ≤ j → j < k → ping j ≠ none) → ping k = none →
      sel (pingLoop ping ev fuel i).2 = List.replicate (k - i) false ++ [true] := by
  intro fuel
  induction fuel with
  | zero => intro i k h1 h2 h3; omega
  | succ fuel ih =>
    intro i k h1 h2 h3 hfail hok
    unfold pingLoop
    have hi : i < 10 := by omega
    rw [if_pos hi]
    by_cases hik : i = k
    · subst hik
      simp [hok, hev, hnil]
    · have hpi := hfail i (le_refl i) (by omega)
      cases hp : ping i with
      | none => exact absurd hp hpi
      | some e =>
        have hne : ¬ i = 10 := by omega
        simp only [if_neg hne, hev, hsleep]
        rw [ih (i + 1) k (by omega) h2 (by omega) (fun j hj1 hj2 => hfail j (by omega) hj2) hok]
        have e2 : k - i = (k - (i + 1)) + 1 := by omega
        rw [e2, List.replicate_succ, List.cons_append]

theorem pingLoop_all_fail :
    ∀ fuel i, i + fuel ≤ 10 → (∀ j, i ≤ j → j < 10 → ping j ≠ none) →
      sel (pingLoop ping ev fuel i).2 = List.replicate fuel false := by
  intro fuel
  induction fuel with
  | zero => intro i _ _; simp [pingLoop, hnil]
  | succ fuel ih =>
    intro i h hfail
    unfold pingLoop
    have hi : i < 10 := by omega
    rw [if_pos hi]
    have hpi := hfail i (le_refl i) hi
    cases hp : ping i with
    | none => exact absurd hp hpi
    | some e =>
      have hne : ¬ i = 10 := by omega
      simp only [if_neg hne, hev, hsleep]
      rw [ih (i + 1) (by omega) (fun j hj1 hj2 => hfail j (by omega) hj2), List.replicate_succ]

omit hnil hev hsleep in
theorem pingLoop_sleep_before_later_ping (hne : ∀ b d, ev b ≠ Event.sleep d) :
    ∀ fuel i pre ok post, (pingLoop ping ev fuel i).2 = pre ++ ev ok :: post →
      pre = [] ∨ ∃ pre1, pre = pre1 ++ [Event.sleep 5] := by
  intro fuel
  induction fuel with
  | zero =>
    intro i pre ok post h
    simp [pingLoop] at h
  | succ fuel ih =>
    intro i pre ok post h
    unfold pingLoop at h
    by_cases hi : i < 10
    · rw [if_pos hi] at h
      cases hp : ping i with
      | none =>
        simp only [hp] at h
        cases pre with
        | nil => exact Or.inl rfl
        | cons a pre => simp at h
      | some e =>
        have hne10 : ¬ i = 10 := by omega
        simp only [hp, if_neg hne10] at h
        cases pre with
        | nil => exact Or.inl rfl
        | cons a pre =>
          simp only [List.cons_append, List.cons.injEq] at h
          obtain ⟨ha, h⟩ := h
          cases pre with
          | nil =>
            simp only [List.nil_append, List.cons.injEq] at h
            exact absurd h.1.symm (hne ok 5)
          | cons b pre =>
            simp only [List.cons_append, List.cons.injEq] at h
            obtain ⟨hb, h⟩ := h
            rcases ih (i + 1) pre ok post h with hnil2 | ⟨pre1, hpre1⟩
            · right
              refine ⟨[a], ?_⟩
              rw [hnil2, ← hb]
              rfl
            · right
              refine ⟨a :: b :: pre1, ?_⟩
              rw [hpre1]
              rfl
    · rw [if_neg hi] at h
      simp at h

omit hnil hev hsleep in
theorem pingLoop_success_in_trace :
    ∀ fuel i k, i ≤ k → k < 10 → k < i + fuel → ping k = none →
      ev true ∈ (pingLoop ping ev fuel i).2 := by
  intro fuel
  induction fuel with
  | zero => intro i k h1 h2 h3; omega
  | succ fuel ih =>
    intro i k h1 h2 h3 hok
    unfold pingLoop
    have hi : i < 10 := by omega
    rw [if_pos hi]
    cases hp : ping i with
    | none => simp
    | some e =>
      have hne : ¬ i = 10 := by omega
      have hik : i ≠ k := by
        intro h; subst h; rw [hok] at hp; cases hp
      simp only [if_neg hne]
      exact List.mem_cons_of_mem _ (List.mem_cons_of_mem _
        (ih (i + 1) k (by omega) h2 (by omega) hok))

end PingLoopOutcomes

/-! ## Reading the trace of a stage -/

theorem sqlPings_append (a b : List Event) : sqlPings (a ++ b) = sqlPings a ++ sqlPings b := by
  induction a with
  | nil => rfl
  | cons x a ih => cases x <;> simp [sqlPings, ih]

theorem mongoPings_append (a b : List Event) :
    mongoPings (a ++ b) = mongoPings a ++ mongoPings b := by
  induction a with
  | nil => rfl
  | cons x a ih => cases x <;> simp [mongoPings, ih]

theorem pgVerify_no_ping (env : PgEnv) : ∀ ok, Event.sqlPing ok ∉ (pgVerify env).2 ++ [Event.sqlClose] := by
  intro ok
  unfold pgVerify
  cases env.exec postgresDefaultQuery with
  | error e => simp
  | result r =>
    cases r with
    | error e => simp
    | ok n => by_cases hn : n = 0 <;> simp [hn]

theorem pgVerify_sqlPings (env : PgEnv) : sqlPings ((pgVerify env).2 ++ [Event.sqlClose]) = [] := by
  unfold pgVerify
  cases env.exec postgresDefaultQuery with
  | error e => rfl
  | result r =>
    cases r with
    | error e => rfl
    | ok n => by_cases hn : n = 0 <;> simp [hn, sqlPings]

/-- If `x` does not occur in `v`, an occurrence of `x` in `p ++ v` lies in
`p`. -/
theorem split_in_left {α : Type} {p v pre post : List α} {x : α} (hx : x ∉ v)
    (h : p ++ v = pre ++ x :: post) : ∃ c, p = pre ++ x :: c ∧ post = c ++ v := by
  induction p generalizing pre with
  | nil =>
    exfalso
    apply hx
    simp only [List.nil_append] at h
    rw [h]
    simp
  | cons a p ih =>
    cases pre with
    | nil =>
      simp only [List.cons_append, List.nil_append, List.cons.injEq] at h
      exact ⟨p, by simp [h.1], h.2.symm⟩
    | cons b pre =>
      simp only [List.cons_append, List.cons.injEq] at h
      obtain ⟨c, hc1, hc2⟩ := ih h.2
      exact ⟨c, by simp [h.1, hc1], hc2⟩

/-- The trace of an invocation of the Postgres stage that reached the ping
loop. -/
theorem pg_trace_of_open (cfg : Config) (env : PgEnv)
    (hact : cfg.postgresDBUser.length ≠ 0 ∧ cfg.postgresDBPassword.length ≠ 0)
    (hopen : env.sqlOpen (psqlInfo (validatePostgresDBConnection cfg env).1) = none) :
    validatePostgresDBConnection cfg env =
      ({ cfg with postgresDBSSLMode := normalizeSSLMode cfg.postgresDBSSLMode },
       ⟨(pgVerify env).1,
        Event.sqlOpen
            (psqlInfo { cfg with postgresDBSSLMode := normalizeSSLMode cfg.postgresDBSSLMode })
            true ::
          ((pingLoop env.ping Event.sqlPing 10 0).2 ++ ((pgVerify env).2 ++ [Event.sqlClose]))⟩) := by
  have h1 : (validatePostgresDBConnection cfg env).1 =
      { cfg with postgresDBSSLMode := normalizeSSLMode cfg.postgresDBSSLMode } := by
    unfold validatePostgresDBConnection
    rw [if_pos hact]
    simp only
    split <;> try split
    all_goals rfl
  rw [h1] at hopen
  have h2 := pingLoop_fst env.ping Event.sqlPing 10 0
  unfold validatePostgresDBConnection
  rw [if_pos hact]
  simp only [hopen]
  generalize pingLoop env.ping Event.sqlPing 10 0 = r at h2
  obtain ⟨r1, r2⟩ := r
  simp only at h2
  subst h2
  simp

/-- The trace of an invocation of the Postgres stage, whatever happens. -/
theorem pg_trace_cases (cfg : Config) (env : PgEnv) :
    (validatePostgresDBConnection cfg env).2.trace = [] ∨
    (∃ dsn, (validatePostgresDBConnection cfg env).2.trace = [Event.sqlOpen dsn false]) ∨
    (∃ dsn, (validatePostgresDBConnection cfg env).2.trace =
      Event.sqlOpen dsn true ::
        ((pingLoop env.ping Event.sqlPing 10 0).2 ++ ((pgVerify env).2 ++ [Event.sqlClose]))) := by
  by_cases hact : cfg.postgresDBUser.length ≠ 0 ∧ cfg.postgresDBPassword.length ≠ 0
  · cases hopen : env.sqlOpen (psqlInfo (validatePostgresDBConnection cfg env).1) with
    | none =>
      right; right
      rw [pg_trace_of_open cfg env hact hopen]
      exact ⟨_, rfl⟩
    | some e =>
      right; left
      have h1 : (validatePostgresDBConnection cfg env).1 =
          { cfg with postgresDBSSLMode := normalizeSSLMode cfg.postgresDBSSLMode } := by
        unfold validatePostgresDBConnection
        rw [if_pos hact]
        simp only
        split <;> try split
        all_goals rfl
      rw [h1] at hopen
      unfold validatePostgresDBConnection
      rw [if_pos hact]
      simp only [hopen]
      exact ⟨_, rfl⟩
  · left
    unfold validatePostgresDBConnection
    rw [if_neg hact]

/-- The trace of an invocation of the Mongo stage that reached the ping
loop. -/
theorem mongo_trace_of_connect (cfg : Config) (env : MongoEnv)
    (hact : cfg.mongoDB.length ≠ 0 ∧ cfg.mongoDBUser.length ≠ 0 ∧ cfg.mongoDBPassword.length ≠ 0)
    (hconn : env.connect (mongoURI cfg) = none) :
    validateMongoDBConnection cfg env =
      ⟨none, Event.mongoConnect (mongoURI cfg) true :: (pingLoop env.ping Event.mongoPing 10 0).2⟩ := by
  have h2 := pingLoop_fst env.ping Event.mongoPing 10 0
  unfold validateMongoDBConnection
  rw [if_pos hact]
  simp only [hconn]
  generalize pingLoop env.ping Event.mongoPing 10 0 = r at h2
  obtain ⟨r1, r2⟩ := r
  simp only at h2
  subst h2
  rfl

/-- The trace of an invocation of the Mongo stage, whatever happens. -/
theorem mongo_trace_cases (cfg : Config) (env : MongoEnv) :
    (validateMongoDBConnection cfg env).trace = [] ∨
    (∃ uri, (validateMongoDBConnection cfg env).trace = [Event.mongoConnect uri false]) ∨
    (∃ uri, (validateMongoDBConnection cfg env).trace =
      Event.mongoConnect uri true :: (pingLoop env.ping Event.mongoPing 10 0).2) := by
  by_cases hact :
      cfg.mongoDB.length ≠ 0 ∧ cfg.mongoDBUser.length ≠ 0 ∧ cfg.mongoDBPassword.length ≠ 0
  · cases hconn : env.connect (mongoURI cfg) with
    | none =>
      right; right
      rw [mongo_trace_of_connect cfg env hact hconn]
      exact ⟨_, rfl⟩
    | some e =>
      right; left
      unfold validateMongoDBConnection
      rw [if_pos hact]
      simp only [hconn]
      exact ⟨_, rfl⟩
  · left
    unfold validateMongoDBConnection
    rw [if_neg hact]

/-! ## Bounded ping loop -/

theorem pg_ping_bounds (cfg : Config) (env : PgEnv) :
    (sqlPings (validatePostgresDBConnection cfg env).2.trace).length ≤ 10 ∧
    (∀ pre post, sqlPings (validatePostgresDBConnection cfg env).2.trace = pre ++ true :: post →
      post = []) ∧
    (∀ pre ok post,
      (validatePostgresDBConnection cfg env).2.trace = pre ++ Event.sqlPing ok :: post →
      sqlPings pre ≠ [] → ∃ pre1, pre = pre1 ++ [Event.sleep 5]) := by
  rcases pg_trace_cases cfg env with h | ⟨dsn, h⟩ | ⟨dsn, h⟩
  · rw [h]
    refine ⟨by simp [sqlPings], ?_, ?_⟩
    · intro pre post hp; simp [sqlPings] at hp
    · intro pre ok post hp; simp at hp
  · rw [h]
    refine ⟨by simp [sqlPings], ?_, ?_⟩
    · intro pre post hp; simp [sqlPings] at hp
    · intro pre ok post hp
      cases pre with
      | nil => simp at hp
      | cons a pre => simp at hp
  · rw [h]
    have e : sqlPings (Event.sqlOpen dsn true ::
        ((pingLoop env.ping Event.sqlPing 10 0).2 ++ ((pgVerify env).2 ++ [Event.sqlClose])))
        = sqlPings (pingLoop env.ping Event.sqlPing 10 0).2 := by
      show sqlPings (_ ++ _) = _
      rw [sqlPings_append, pgVerify_sqlPings, List.append_nil]
    rw [e]
    refine ⟨?_, ?_, ?_⟩
    · exact pingLoop_outcomes_length env.ping Event.sqlPing sqlPings rfl
        (fun _ _ => rfl) (fun _ _ => rfl) 10 0
    · exact pingLoop_stops_at_success env.ping Event.sqlPing sqlPings rfl
        (fun _ _ => rfl) (fun _ _ => rfl) 10 0
    · intro pre ok post hp hpre
      cases pre with
      | nil => exact absurd rfl hpre
      | cons a pre =>
        simp only [List.cons_append, List.cons.injEq] at hp
        obtain ⟨ha, hp⟩ := hp
        obtain ⟨c, hc, _⟩ := split_in_left (pgVerify_no_ping env ok) hp
        rcases pingLoop_sleep_before_later_ping env.ping Event.sqlPing
            (fun b d => by simp) 10 0 pre ok c hc with hnil | ⟨pre1, hpre1⟩
        · exfalso
          apply hpre
          rw [hnil, ← ha]
          rfl
        · exact ⟨a :: pre1, by rw [hpre1]; rfl⟩

theorem mongo_ping_bounds (cfg : Config) (env : MongoEnv) :
    (mongoPings (validateMongoDBConnection cfg env).trace).length ≤ 10 ∧
    (∀ pre post, mongoPings (validateMongoDBConnection cfg env).trace = pre ++ true :: post →
      post = []) ∧
    (∀ pre ok post,
      (validateMongoDBConnection cfg env).trace = pre ++ Event.mongoPing ok :: post →
      mongoPings pre ≠ [] → ∃ pre1, pre = pre1 ++ [Event.sleep 5]) := by
  rcases mongo_trace_cases cfg env with h | ⟨uri, h⟩ | ⟨uri, h⟩
  · rw [h]
    refine ⟨by simp [mongoPings], ?_, ?_⟩
    · intro pre post hp; simp [mongoPings] at hp
    · intro pre ok post hp; simp at hp
  · rw [h]
    refine ⟨by simp [mongoPings], ?_, ?_⟩
    · intro pre post hp; simp [mongoPings] at hp
    · intro pre ok post hp
      cases pre with
      | nil => simp at hp
      | cons a pre => simp at hp
  · rw [h]
    have e : mongoPings (Event.mongoConnect uri true :: (pingLoop env.ping Event.mongoPing 10 0).2)
        = mongoPings (pingLoop env.ping Event.mongoPing 10 0).2 := rfl
    rw [e]
    refine ⟨?_, ?_, ?_⟩
    · exact pingLoop_outcomes_length env.ping Event.mongoPing mongoPings rfl
        (fun _ _ => rfl) (fun _ _ => rfl) 10 0
    · exact pingLoop_stops_at_success env.ping Event.mongoPing mongoPings rfl
        (fun _ _ => rfl) (fun _ _ => rfl) 10 0
    · intro pre ok post hp hpre
      cases pre with
      | nil => exact absurd rfl hpre
      | cons a pre =>
        simp only [List.cons_append, List.cons.injEq] at hp
        obtain ⟨ha, hp⟩ := hp
        rcases pingLoop_sleep_before_later_ping env.ping Event.mongoPing
            (fun b d => by simp) 10 0 pre ok post hp with hnil | ⟨pre1, hpre1⟩
        · exfalso
          apply hpre
          rw [hnil, ← ha]
          rfl
        · exact ⟨a :: pre1, by rw [hpre1]; rfl⟩

theorem pg_ping_counts (cfg : Config) (env : PgEnv)
    (hu : cfg.postgresDBUser ≠ "") (hp : cfg.postgresDBPassword ≠ "")
    (hopen : env.sqlOpen (psqlInfo (validatePostgresDBConnection cfg env).1) = none) :
    (∀ k, 1 ≤ k → k ≤ 10 → (∀ j, j < k - 1 → env.ping j ≠ none) → env.ping (k - 1) = none →
      sqlPings (validatePostgresDBConnection cfg env).2.trace
        = List.replicate (k - 1) false ++ [true]) ∧
    ((∀ j, j < 10 → env.ping j ≠ none) →
      sqlPings (validatePostgresDBConnection cfg env).2.trace = List.replicate 10 false) := by
  rw [pg_trace_of_open cfg env (active_pg cfg hu hp) hopen]
  have e : ∀ dsn, sqlPings (Event.sqlOpen dsn true ::
      ((pingLoop env.ping Event.sqlPing 10 0).2 ++ ((pgVerify env).2 ++ [Event.sqlClose])))
      = sqlPings (pingLoop env.ping Event.sqlPing 10 0).2 := by
    intro dsn
    show sqlPings (_ ++ _) = _
    rw [sqlPings_append, pgVerify_sqlPings, List.append_nil]
  simp only [e]
  constructor
  · intro k h1 h2 hfail hok
    exact pingLoop_first_success env.ping Event.sqlPing sqlPings rfl (fun _ _ => rfl)
      (fun _ _ => rfl) 10 0 (k - 1) (Nat.zero_le _) (by omega) (by omega)
      (fun j _ hj => hfail j hj) hok
  · intro hfail
    exact pingLoop_all_fail env.ping Event.sqlPing sqlPings rfl (fun _ _ => rfl)
      (fun _ _ => rfl) 10 0 (by omega) (fun j _ hj => hfail j hj)

theorem mongo_ping_counts (cfg : Config) (env : MongoEnv)
    (hd : cfg.mongoDB ≠ "") (hu : cfg.mongoDBUser ≠ "") (hp : cfg.mongoDBPassword ≠ "")
    (hconn : env.connect (mongoURI cfg) = none) :
    (∀ k, 1 ≤ k → k ≤ 10 → (∀ j, j < k - 1 → env.ping j ≠ none) → env.ping (k - 1) = none →
      mongoPings (validateMongoDBConnection cfg env).trace
        = List.replicate (k - 1) false ++ [true]) ∧
    ((∀ j, j < 10 → env.ping j ≠ none) →
      mongoPings (validateMongoDBConnection cfg env).trace = List.replicate 10 false) := by
  rw [mongo_trace_of_connect cfg env (active_mongo cfg hd hu hp) hconn]
  have e : mongoPings (Event.mongoConnect (mongoURI cfg) true ::
      (pingLoop env.ping Event.mongoPing 10 0).2)
      = mongoPings (pingLoop env.ping Event.mongoPing 10 0).2 := rfl
  simp only [e]
  constructor
  · intro k h1 h2 hfail hok
    exact pingLoop_first_success env.ping Event.mongoPing mongoPings rfl (fun _ _ => rfl)
      (fun _ _ => rfl) 10 0 (k - 1) (Nat.zero_le _) (by omega) (by omega)
      (fun j _ hj => hfail j hj) hok
  · intro hfail
    exact pingLoop_all_fail env.ping Event.mongoPing mongoPings rfl (fun _ _ => rfl)
      (fun _ _ => rfl) 10 0 (by omega) (fun j _ hj => hfail j hj)

/-- C9 (bounded ping loop).  For every configuration and every sequence of ping
outcomes, one invocation of `validatePostgresDBConnection` and one invocation
of `validateMongoDBConnection` each

* perform at most 10 pings,
* perform no ping after a successful one,
* perform the sleep of 5 seconds right before every ping other than the
  first,

and, when the invocation reaches its ping loop (stage configured, open or
connect succeeded; the Postgres connection string is the one of the variables
after the call, that is, with the normalized SSL mode),

* make exactly `k` pings (`k - 1` failed ones and the successful one) if the
  first success is at attempt `k`, `1 ≤ k ≤ 10`,
* make exactly 10 pings, all failed, if none of the first 10 succeeds. -/
theorem bounded_ping_loop (cfg : Config) (pg : PgEnv) (mg : MongoEnv) :
    ((sqlPings (validatePostgresDBConnection cfg pg).2.trace).length ≤ 10 ∧
     (∀ pre post, sqlPings (validatePostgresDBConnection cfg pg).2.trace = pre ++ true :: post →
        post = []) ∧
     (∀ pre ok post,
        (validatePostgresDBConnection cfg pg).2.trace = pre ++ Event.sqlPing ok :: post →
        sqlPings pre ≠ [] → ∃ pre1, pre = pre1 ++ [Event.sleep 5]) ∧
     (cfg.postgresDBUser ≠ "" → cfg.postgresDBPassword ≠ "" →
        pg.sqlOpen (psqlInfo (validatePostgresDBConnection cfg pg).1) = none →
        (∀ k, 1 ≤ k → k ≤ 10 → (∀ j, j < k - 1 → pg.ping j ≠ none) → pg.ping (k - 1) = none →
          sqlPings (validatePostgresDBConnection cfg pg).2.trace
              = List.replicate (k - 1) false ++ [true] ∧
          (sqlPings (validatePostgresDBConnection cfg pg).2.trace).length = k) ∧
        ((∀ j, j < 10 → pg.ping j ≠ none) →
          sqlPings (validatePostgresDBConnection cfg pg).2.trace = List.replicate 10 false ∧
          (sqlPings (validatePostgresDBConnection cfg pg).2.trace).length = 10))) ∧
    ((mongoPings (validateMongoDBConnection cfg mg).trace).length ≤ 10 ∧
     (∀ pre post, mongoPings (validateMongoDBConnection cfg mg).trace = pre ++ true :: post →
        post = []) ∧
     (∀ pre ok post,
        (validateMongoDBConnection cfg mg).trace = pre ++ Event.mongoPing ok :: post →
        mongoPings pre ≠ [] → ∃ pre1, pre = pre1 ++ [Event.sleep 5]) ∧
     (cfg.mongoDB ≠ "" → cfg.mongoDBUser ≠ "" → cfg.mongoDBPassword ≠ "" →
        mg.connect (mongoURI cfg) = none →
        (∀ k, 1 ≤ k → k ≤ 10 → (∀ j, j < k - 1 → mg.ping j ≠ none) → mg.ping (k - 1) = none →
          mongoPings (validateMongoDBConnection cfg mg).trace
              = List.replicate (k - 1) false ++ [true] ∧
          (mongoPings (validateMongoDBConnection cfg mg).trace).length = k) ∧
        ((∀ j, j < 10 → mg.ping j ≠ none) →
          mongoPings (validateMongoDBConnection cfg mg).trace = List.replicate 10 false ∧
          (mongoPings (validateMongoDBConnection cfg mg).trace).length = 10))) := by
  refine ⟨⟨(pg_ping_bounds cfg pg).1, (pg_ping_bounds cfg pg).2.1, (pg_ping_bounds cfg pg).2.2,
      ?_⟩,
    ⟨(mongo_ping_bounds cfg mg).1, (mongo_ping_bounds cfg mg).2.1, (mongo_ping_bounds cfg mg).2.2,
      ?_⟩⟩
  · intro hu hp hopen
    obtain ⟨h1, h2⟩ := pg_ping_counts cfg pg hu hp hopen
    refine ⟨fun k hk1 hk2 hfail hok => ?_, fun hfail => ?_⟩
    · have h := h1 k hk1 hk2 hfail hok
      refine ⟨h, ?_⟩
      rw [h]
      simp
      omega
    · have h := h2 hfail
      exact ⟨h, by rw [h]; simp⟩
  · intro hd hu hp hconn
    obtain ⟨h1, h2⟩ := mongo_ping_counts cfg mg hd hu hp hconn
    refine ⟨fun k hk1 hk2 hfail hok => ?_, fun hfail => ?_⟩
    · have h := h1 k hk1 hk2 hfail hok
      refine ⟨h, ?_⟩
      rw [h]
      simp
      omega
    · have h := h2 hfail
      exact ⟨h, by rw [h]; simp⟩

/-- C9 at concrete inputs: with both database stages configured, a Postgres
server that answers the third ping is pinged exactly three times, and a Mongo
server that never answers is pinged exactly ten times. -/
theorem bounded_ping_loop_witness :
    (sqlPings (validatePostgresDBConnection dbConfig (pgPingableAfter 2 1)).2.trace
        = List.replicate (3 - 1) false ++ [true] ∧
      (sqlPings (validatePostgresDBConnection dbConfig (pgPingableAfter 2 1)).2.trace).length
        = 3) ∧
    (mongoPings (validateMongoDBConnection dbConfig mongoNeverPingable).trace
        = List.replicate 10 false ∧
      (mongoPings (validateMongoDBConnection dbConfig mongoNeverPingable).trace).length = 10) :=
  ⟨((bounded_ping_loop dbConfig (pgPingableAfter 2 1) mongoNeverPingable).1.2.2.2
      (by decide) (by decide) (by decide)).1 3 (by decide) (by decide) (by decide) (by decide),
   ((bounded_ping_loop dbConfig (pgPingableAfter 2 1) mongoNeverPingable).2.2.2.2
      (by decide) (by decide) (by decide) (by decide)).2 (by decide)⟩

/-! ## Postgres stage -/

/-- C8 (non-zero-rows invariant).  For a configured Postgres stage, if the open
succeeds (the connection string is the one of the variables after the call,
that is, with the normalized SSL mode), some ping of the loop succeeds, and the verification query executes
without error while `RowsAffected` reports 0 without error, the invocation
returns the error of line 197, whose text is `rows affected 0 for the query:`
followed by the query; the successful ping, the query and the `RowsAffected`
call are in the trace.  That error is none of the connection, ping, exec and
`RowsAffected` errors, and its text differs from the text of every connection
and exec error. -/
theorem rows_affected_zero_fails (cfg : Config) (env : PgEnv)
    (hu : cfg.postgresDBUser ≠ "") (hp : cfg.postgresDBPassword ≠ "")
    (hopen : env.sqlOpen (psqlInfo (validatePostgresDBConnection cfg env).1) = none)
    (hping : ∃ k, k < 10 ∧ env.ping k = none)
    (hexec : env.exec postgresDefaultQuery = .result (.ok 0)) :
    (validatePostgresDBConnection cfg env).2.err = some StageError.rowsAffectedZero ∧
    (validatePostgresDBConnection cfg env).2.err ≠ none ∧
    StageError.rowsAffectedZero.message
      = "rows affected 0 for the query: SELECT datname FROM pg_database WHERE datistemplate = false" ∧
    Event.sqlPing true ∈ (validatePostgresDBConnection cfg env).2.trace ∧
    Event.sqlExec postgresDefaultQuery true ∈ (validatePostgresDBConnection cfg env).2.trace ∧
    Event.sqlRowsAffected true ∈ (validatePostgresDBConnection cfg env).2.trace ∧
    (∀ e, StageError.rowsAffectedZero ≠ StageError.connectionFailed e ∧
          StageError.rowsAffectedZero ≠ StageError.pingFailed e ∧
          StageError.rowsAffectedZero ≠ StageError.execFailed e ∧
          StageError.rowsAffectedZero ≠ StageError.rowsAffectedError e ∧
          StageError.rowsAffectedZero.message ≠ (StageError.connectionFailed e).message ∧
          StageError.rowsAffectedZero.message ≠ (StageError.execFailed e).message) := by
  obtain ⟨k, hk, hok⟩ := hping
  have hv : pgVerify env = (some StageError.rowsAffectedZero,
      [Event.sqlExec postgresDefaultQuery true, Event.sqlRowsAffected true]) := by
    unfold pgVerify
    rw [hexec]
    rfl
  have hin := pingLoop_success_in_trace env.ping Event.sqlPing 10 0 k (Nat.zero_le _) hk
    (by omega) hok
  rw [pg_trace_of_open cfg env (active_pg cfg hu hp) hopen, hv]
  refine ⟨rfl, by simp, by decide, ?_, by simp, by simp, ?_⟩
  · exact List.mem_cons_of_mem _ (List.mem_append_left _ hin)
  · intro e
    refine ⟨by simp, by simp, by simp, by simp, ?_, ?_⟩
    · intro h
      have h2 := congrArg (fun s : String => s.data.head?) h
      simp [StageError.message, postgresDefaultQuery] at h2
    · intro h
      have h2 := congrArg (fun s : String => s.data.head?) h
      simp [StageError.message, postgresDefaultQuery] at h2

/-- C8 at a concrete input: user `u`, password `p`, a server that answers the
second ping and a query that reports 0 rows. -/
theorem rows_affected_zero_fails_witness :
    (validatePostgresDBConnection (pgConfig "disable") (pgPingableAfter 1 0)).2.err
      = some StageError.rowsAffectedZero :=
  (rows_affected_zero_fails (pgConfig "disable") (pgPingableAfter 1 0)
    (by decide) (by decide) (by decide) ⟨1, by decide, by decide⟩ rfl).1

/-- C5, the claim as written, at the input `FALSE`: the value is not empty, does
not equal `true` up to letter case and is not the literal `false`, yet the
connection string of a configured invocation carries `sslmode=disable`, not
`sslmode=FALSE`. -/
theorem ssl_mode_FALSE_is_disable :
    "FALSE" ≠ "" ∧ eqIgnoreCase "FALSE" "true" = false ∧ "FALSE" ≠ "false" ∧
    (validatePostgresDBConnection (pgConfig "FALSE") (pgPingableAfter 0 1)).2.trace.head?
      = some (Event.sqlOpen
          "host=postgresql.default.svc.cluster.local port=5432 user=u password=p dbname=postgres sslmode=disable connect_timeout=10"
          true) ∧
    (validatePostgresDBConnection (pgConfig "FALSE") (pgPingableAfter 0 1)).1.postgresDBSSLMode
      ≠ "FALSE" := by
  decide

/-- C5, amended (SSL-mode normalizer).  A configured invocation of
`validatePostgresDBConnection` first opens the database with the connection
string `host=… port=… user=… password=… dbname=… sslmode=m connect_timeout=10`
and leaves `m` in `postgresDBSSLMode`, where, `s` being the value of
`postgresDBSSLMode` before the call, `m` is `disable` if `s` is empty,
`require` if `s` equals `true` up to letter case, `disable` if `s` equals
`false` up to letter case, and `s` itself in every other case. -/
theorem ssl_mode_normalizer (cfg : Config) (env : PgEnv)
    (hu : cfg.postgresDBUser ≠ "") (hp : cfg.postgresDBPassword ≠ "") :
    ∃ m ok,
      (validatePostgresDBConnection cfg env).2.trace.head?
        = some (Event.sqlOpen
            ("host=" ++ cfg.postgresDBHost ++ " port=" ++ fmtInt cfg.postgresDBPort ++
             " user=" ++ cfg.postgresDBUser ++ " password=" ++ cfg.postgresDBPassword ++
             " dbname=" ++ cfg.postgresDB ++ " sslmode=" ++ m ++ " connect_timeout=10") ok) ∧
      (validatePostgresDBConnection cfg env).1.postgresDBSSLMode = m ∧
      (cfg.postgresDBSSLMode = "" → m = "disable") ∧
      (eqIgnoreCase cfg.postgresDBSSLMode "true" = true → m = "require") ∧
      (eqIgnoreCase cfg.postgresDBSSLMode "false" = true → m = "disable") ∧
      (cfg.postgresDBSSLMode ≠ "" → eqIgnoreCase cfg.postgresDBSSLMode "true" = false →
        eqIgnoreCase cfg.postgresDBSSLMode "false" = false → m = cfg.postgresDBSSLMode) := by
  have hact := active_pg cfg hu hp
  refine ⟨normalizeSSLMode cfg.postgresDBSSLMode, (env.sqlOpen (psqlInfo
    { cfg with postgresDBSSLMode := normalizeSSLMode cfg.postgresDBSSLMode })).isNone, ?_, ?_, ?_,
    ?_, ?_, ?_⟩
  · unfold validatePostgresDBConnection
    rw [if_pos hact]
    simp only
    cases hopen : env.sqlOpen (psqlInfo
      { cfg with postgresDBSSLMode := normalizeSSLMode cfg.postgresDBSSLMode }) with
    | some e => rfl
    | none =>
      simp only
      split <;> rfl
  · unfold validatePostgresDBConnection
    rw [if_pos hact]
    simp only
    split <;> try split
    all_goals rfl
  · intro hs
    rw [hs]
    decide
  · intro hs
    have hne : ¬ cfg.postgresDBSSLMode.length = 0 := by
      intro h0
      rw [(length_eq_zero_iff _).mp h0] at hs
      exact absurd hs (by decide)
    unfold normalizeSSLMode
    simp only [if_neg hne]
    rw [if_pos ((toLower_eq_true_iff _).mpr hs)]
  · intro hs
    have hne : ¬ cfg.postgresDBSSLMode.length = 0 := by
      intro h0
      rw [(length_eq_zero_iff _).mp h0] at hs
      exact absurd hs (by decide)
    unfold normalizeSSLMode
    simp only [if_neg hne]
    by_cases ht : toLower cfg.postgresDBSSLMode = "true"
    · exfalso
      have h2 := (toLower_eq_false_iff _).mpr hs
      rw [ht] at h2
      exact absurd h2 (by decide)
    · rw [if_neg ht, if_pos ((toLower_eq_false_iff _).mpr hs)]
  · intro hs ht hf
    have hne : ¬ cfg.postgresDBSSLMode.length = 0 := fun h0 => hs ((length_eq_zero_iff _).mp h0)
    have ht2 : ¬ toLower cfg.postgresDBSSLMode = "true" := by
      intro h
      rw [(toLower_eq_true_iff _).mp h] at ht
      cases ht
    have hf2 : ¬ toLower cfg.postgresDBSSLMode = "false" := by
      intro h
      rw [(toLower_eq_false_iff _).mp h] at hf
      cases hf
    unfold normalizeSSLMode
    simp only [if_neg hne, if_neg ht2, if_neg hf2]

/-- C5, amended, at a concrete input: `verify-full` is passed on unchanged. -/
theorem ssl_mode_normalizer_witness :
    ∃ m ok,
      (validatePostgresDBConnection (pgConfig "verify-full") (pgPingableAfter 0 1)).2.trace.head?
        = some (Event.sqlOpen
            ("host=" ++ (pgConfig "verify-full").postgresDBHost ++ " port=" ++
             fmtInt (pgConfig "verify-full").postgresDBPort ++
             " user=" ++ (pgConfig "verify-full").postgresDBUser ++ " password=" ++
             (pgConfig "verify-full").postgresDBPassword ++
             " dbname=" ++ (pgConfig "verify-full").postgresDB ++ " sslmode=" ++ m ++
             " connect_timeout=10") ok) ∧
      m = "verify-full" := by
  obtain ⟨m, ok, h1, _, _, _, _, h6⟩ :=
    ssl_mode_normalizer (pgConfig "verify-full") (pgPingableAfter 0 1) (by decide) (by decide)
  exact ⟨m, ok, h1, h6 (by decide) (by decide) (by decide)⟩

/-! ## HTTP stage -/

theorem gets_bodyClose (k : Nat) (t : List Event) : gets (Event.httpBodyClose k :: t) = gets t :=
  rfl

theorem httpCheckLoop_transport (env : HttpEnv) (seg : String) (rest : List String) (k : Nat)
    (d : List Event) (e : String) (hg : env.get k (trimSpace seg) = .transportError e) :
    httpCheckLoop env (seg :: rest) k d
      = ⟨some (.getFailed e), Event.httpGet (trimSpace seg) false :: d⟩ := by
  rw [httpCheckLoop]
  simp only [hg]

theorem httpCheckLoop_read_fail (env : HttpEnv) (seg : String) (rest : List String) (k : Nat)
    (d : List Event) (st : Int) (sofar e : String)
    (hg : env.get k (trimSpace seg) = .response st (.fail sofar e)) :
    httpCheckLoop env (seg :: rest) k d
      = ⟨some (.readingResponseFailed e),
          Event.httpGet (trimSpace seg) true :: Event.httpReadBody k false ::
            Event.httpBodyClose k :: d⟩ := by
  rw [httpCheckLoop]
  simp only [hg]

theorem httpCheckLoop_read_ok (env : HttpEnv) (seg : String) (rest : List String) (k : Nat)
    (d : List Event) (st : Int) (b : String)
    (hg : env.get k (trimSpace seg) = .response st (.ok b)) :
    httpCheckLoop env (seg :: rest) k d
      = ⟨(httpCheckLoop env rest (k + 1) (Event.httpBodyClose k :: d)).err,
          Event.httpGet (trimSpace seg) true :: Event.httpReadBody k true ::
            (httpCheckLoop env rest (k + 1) (Event.httpBodyClose k :: d)).trace⟩ := by
  rw [httpCheckLoop]
  simp only [hg]

theorem httpCheckLoop_err_iff (env : HttpEnv) :
    ∀ (segs : List String) (k : Nat) (d : List Event),
      (httpCheckLoop env segs k d).err = none ↔
        ∀ i url, (segs.map trimSpace)[i]? = some url → (env.get (k + i) url).succeeded = true := by
  intro segs
  induction segs with
  | nil => intro k d; simp [httpCheckLoop]
  | cons seg rest ih =>
    intro k d
    have key : (∀ i url, ((seg :: rest).map trimSpace)[i]? = some url →
          (env.get (k + i) url).succeeded = true) ↔
        ((env.get k (trimSpace seg)).succeeded = true ∧
          ∀ i url, (rest.map trimSpace)[i]? = some url →
            (env.get (k + 1 + i) url).succeeded = true) := by
      constructor
      · intro h
        refine ⟨h 0 _ (by simp), fun i url hi => ?_⟩
        have := h (i + 1) url (by simpa using hi)
        rwa [show k + (i + 1) = k + 1 + i by omega] at this
      · rintro ⟨h0, hr⟩ i url hi
        cases i with
        | zero =>
          simp at hi
          rw [← hi]
          exact h0
        | succ i =>
          have := hr i url (by simpa using hi)
          rwa [show k + 1 + i = k + (i + 1) by omega] at this
    rw [key]
    cases hg : env.get k (trimSpace seg) with
    | transportError e =>
      rw [httpCheckLoop_transport env seg rest k d e hg]
      simp [GetResult.succeeded]
    | response st body =>
      cases body with
      | fail sofar e =>
        rw [httpCheckLoop_read_fail env seg rest k d st sofar e hg]
        simp [GetResult.succeeded]
      | ok b =>
        rw [httpCheckLoop_read_ok env seg rest k d st b hg]
        have hs : (GetResult.response st (BodyRead.ok b)).succeeded = true := rfl
        simp only [hs, true_and]
        exact ih (k + 1) (Event.httpBodyClose k :: d)

theorem httpCheckLoop_gets_all (env : HttpEnv) :
    ∀ (segs : List String) (k : Nat) (d : List Event),
      (∀ i url, (segs.map trimSpace)[i]? = some url → (env.get (k + i) url).succeeded = true) →
      gets (httpCheckLoop env segs k d).trace = segs.map trimSpace ++ gets d := by
  intro segs
  induction segs with
  | nil => intro k d _; simp [httpCheckLoop]
  | cons seg rest ih =>
    intro k d h
    have h0 := h 0 (trimSpace seg) (by simp)
    have hr : ∀ i url, (rest.map trimSpace)[i]? = some url →
        (env.get (k + 1 + i) url).succeeded = true := by
      intro i url hi
      have := h (i + 1) url (by simpa using hi)
      rwa [show k + (i + 1) = k + 1 + i by omega] at this
    simp only [Nat.add_zero] at h0
    cases hg : env.get k (trimSpace seg) with
    | transportError e => rw [hg] at h0; simp [GetResult.succeeded] at h0
    | response st body =>
      cases body with
      | fail sofar e => rw [hg] at h0; simp [GetResult.succeeded] at h0
      | ok b =>
        rw [httpCheckLoop_read_ok env seg rest k d st b hg]
        simp only [gets, List.map_cons, List.cons_append, List.cons.injEq, true_and]
        rw [ih (k + 1) (Event.httpBodyClose k :: d) hr, gets_bodyClose]

theorem httpCheckLoop_first_failure (env : HttpEnv) :
    ∀ (segs : List String) (k : Nat) (d : List Event) (m : Nat) (url : String),
      (segs.map trimSpace)[m]? = some url →
      (∀ i u, i < m → (segs.map trimSpace)[i]? = some u → (env.get (k + i) u).succeeded = true) →
      (env.get (k + m) url).succeeded = false →
      (httpCheckLoop env segs k d).err ≠ none ∧
      gets (httpCheckLoop env segs k d).trace = (segs.map trimSpace).take (m + 1) ++ gets d := by
  intro segs
  induction segs with
  | nil => intro k d m url hm; simp at hm
  | cons seg rest ih =>
    intro k d m url hm hgood hbad
    cases m with
    | zero =>
      simp at hm
      subst hm
      simp only [Nat.add_zero] at hbad
      cases hg : env.get k (trimSpace seg) with
      | transportError e =>
        rw [httpCheckLoop_transport env seg rest k d e hg]
        simp [gets]
      | response st body =>
        cases body with
        | fail sofar e =>
          rw [httpCheckLoop_read_fail env seg rest k d st sofar e hg]
          simp [gets]
        | ok b => rw [hg] at hbad; simp [GetResult.succeeded] at hbad
    | succ m =>
      have h0 := hgood 0 (trimSpace seg) (Nat.succ_pos m) (by simp)
      simp only [Nat.add_zero] at h0
      have hm2 : (rest.map trimSpace)[m]? = some url := by simpa using hm
      have hgood2 : ∀ i u, i < m → (rest.map trimSpace)[i]? = some u →
          (env.get (k + 1 + i) u).succeeded = true := by
        intro i u hi hu
        have := hgood (i + 1) u (by omega) (by simpa using hu)
        rwa [show k + (i + 1) = k + 1 + i by omega] at this
      have hbad2 : (env.get (k + 1 + m) url).succeeded = false := by
        rwa [show k + 1 + m = k + (m + 1) by omega]
      cases hg : env.get k (trimSpace seg) with
      | transportError e => rw [hg] at h0; simp [GetResult.succeeded] at h0
      | response st body =>
        cases body with
        | fail sofar e => rw [hg] at h0; simp [GetResult.succeeded] at h0
        | ok b =>
          obtain ⟨ih1, ih2⟩ := ih (k + 1) (Event.httpBodyClose k :: d) m url hm2 hgood2 hbad2
          rw [httpCheckLoop_read_ok env seg rest k d st b hg]
          refine ⟨ih1, ?_⟩
          simp only [gets, List.map_cons, List.take_succ_cons, List.cons_append, List.cons.injEq,
            true_and]
          rw [ih2, gets_bodyClose]

theorem httpCheckLoop_status_irrelevant (env : HttpEnv) (f : Nat → String → Int → Int) :
    ∀ (segs : List String) (k : Nat) (d : List Event),
      httpCheckLoop ⟨fun i u => (env.get i u).mapStatus (f i u)⟩ segs k d
        = httpCheckLoop env segs k d := by
  intro segs
  induction segs with
  | nil => intro k d; rfl
  | cons seg rest ih =>
    intro k d
    cases hg : env.get k (trimSpace seg) with
    | transportError e =>
      rw [httpCheckLoop_transport env seg rest k d e hg,
        httpCheckLoop_transport _ seg rest k d e (by simp only [hg, GetResult.mapStatus])]
    | response st body =>
      cases body with
      | fail sofar e =>
        rw [httpCheckLoop_read_fail env seg rest k d st sofar e hg,
          httpCheckLoop_read_fail _ seg rest k d (f k (trimSpace seg) st) sofar e
            (by simp only [hg, GetResult.mapStatus])]
      | ok b =>
        rw [httpCheckLoop_read_ok env seg rest k d st b hg,
          httpCheckLoop_read_ok _ seg rest k d (f k (trimSpace seg) st) b
            (by simp only [hg, GetResult.mapStatus]),
          ih (k + 1) (Event.httpBodyClose k :: d)]

/-- C4 (HTTP all-or-nothing).  For a non-empty `httpReadinessURLs`, with
`targets` its comma-separated segments, each trimmed of surrounding white
space, one invocation of `validateHTTPReadinessCheckCommands`

* returns `nil` if and only if, for every target, the GET returns without
  transport error and the body read succeeds;
* in that case has issued one GET per target, in list order;
* if target `k` is the first whose GET or body read fails, returns an error
  and has issued GETs exactly for targets `0 .. k`, in list order, so none for
  a target after `k`;
* returns the same result with the same effects when the status codes of the
  responses are replaced by any others. -/
theorem http_all_or_nothing (cfg : Config) (env : HttpEnv) (h : cfg.httpReadinessURLs ≠ "") :
    ((validateHTTPReadinessCheckCommands cfg env).err = none ↔
      ∀ i url, (httpTargets cfg.httpReadinessURLs)[i]? = some url →
        (env.get i url).succeeded = true) ∧
    ((∀ i url, (httpTargets cfg.httpReadinessURLs)[i]? = some url →
        (env.get i url).succeeded = true) →
      gets (validateHTTPReadinessCheckCommands cfg env).trace
        = httpTargets cfg.httpReadinessURLs) ∧
    (∀ k url, (httpTargets cfg.httpReadinessURLs)[k]? = some url →
      (∀ i u, i < k → (httpTargets cfg.httpReadinessURLs)[i]? = some u →
        (env.get i u).succeeded = true) →
      (env.get k url).succeeded = false →
      (validateHTTPReadinessCheckCommands cfg env).err ≠ none ∧
      gets (validateHTTPReadinessCheckCommands cfg env).trace
        = (httpTargets cfg.httpReadinessURLs).take (k + 1)) ∧
    (∀ f : Nat → String → Int → Int,
      validateHTTPReadinessCheckCommands cfg ⟨fun i u => (env.get i u).mapStatus (f i u)⟩
        = validateHTTPReadinessCheckCommands cfg env) := by
  have hne : cfg.httpReadinessURLs.length ≠ 0 := fun h0 => h ((length_eq_zero_iff _).mp h0)
  unfold validateHTTPReadinessCheckCommands httpTargets
  simp only [if_pos hne]
  refine ⟨?_, ?_, ?_, ?_⟩
  · have := httpCheckLoop_err_iff env (split cfg.httpReadinessURLs ',') 0 []
    simpa using this
  · intro hall
    have := httpCheckLoop_gets_all env (split cfg.httpReadinessURLs ',') 0 []
      (by simpa using hall)
    simpa [gets] using this
  · intro k url hk hgood hbad
    have := httpCheckLoop_first_failure env (split cfg.httpReadinessURLs ',') 0 [] k url hk
      (by simpa using hgood) (by simpa using hbad)
    simpa [gets] using this
  · intro f
    exact httpCheckLoop_status_irrelevant env f _ 0 []

/-- C4 at concrete inputs: three targets.  When every GET is answered with
status 500 and the body `error` the stage returns `nil` after three GETs; when
the second GET fails at the transport level the stage returns an error and the
third target is never asked. -/
theorem http_all_or_nothing_witness :
    ((validateHTTPReadinessCheckCommands (httpConfig "http://a, http://b ,c") (httpAlways 500)).err
        = none ∧
      gets (validateHTTPReadinessCheckCommands (httpConfig "http://a, http://b ,c")
        (httpAlways 500)).trace = ["http://a", "http://b", "c"]) ∧
    ((validateHTTPReadinessCheckCommands (httpConfig "http://a, http://b ,c")
        (httpFailingAt 1)).err ≠ none ∧
      gets (validateHTTPReadinessCheckCommands (httpConfig "http://a, http://b ,c")
        (httpFailingAt 1)).trace = ["http://a", "http://b"]) :=
  ⟨⟨(http_all_or_nothing (httpConfig "http://a, http://b ,c") (httpAlways 500) (by decide)).1.mpr
      (fun _ _ _ => rfl),
    (http_all_or_nothing (httpConfig "http://a, http://b ,c") (httpAlways 500) (by decide)).2.1
      (fun _ _ _ => rfl)⟩,
   (http_all_or_nothing (httpConfig "http://a, http://b ,c") (httpFailingAt 1) (by decide)).2.2.1
      1 "http://b" (by decide)
      (fun i _ hi _ => by
        have h0 : i = 0 := by omega
        subst h0
        rfl)
      (by decide)⟩

/-! ## Retry loops -/

theorem invocations_retrySegment (w : World) (s : Stage) (cfg : Config) :
    ∀ c j, invocations (retrySegment w s cfg c j) = c + 1 := by
  intro c
  induction c with
  | zero => intro j; rfl
  | succ c ih => intro j; simp [retrySegment, invocations, ih]

theorem retrySleeps_retrySegment (w : World) (s : Stage) (cfg : Config) :
    ∀ c j, retrySleeps (retrySegment w s cfg c j) = List.replicate c 5 := by
  intro c
  induction c with
  | zero => intro j; rfl
  | succ c ih => intro j; simp [retrySegment, retrySleeps, ih, List.replicate_succ]

theorem getLast_retrySegment (w : World) (s : Stage) (cfg : Config) :
    ∀ c j, (retrySegment w s cfg c j).getLast? = some (RunEvent.invoke s (attempt w s cfg (j + c))) := by
  intro c
  induction c with
  | zero => intro j; rfl
  | succ c ih =>
    intro j
    have h := ih (j + 1)
    rw [show j + 1 + c = j + (c + 1) by omega] at h
    cases hseg : retrySegment w s cfg c (j + 1) with
    | nil => rw [hseg] at h; simp at h
    | cons a t =>
      rw [hseg] at h
      simp only [retrySegment, hseg]
      rw [List.getLast?_cons_cons, List.getLast?_cons_cons]
      exact h

theorem retryLoop_segment (w : World) (s : Stage) (cfg : Config) :
    ∀ c fuel j, c < fuel →
      (∀ i, j ≤ i → i < j + c → (attempt w s cfg i).err ≠ none) →
      (attempt w s cfg (j + c)).err = none →
      retryLoop w s fuel j (stateBefore w s cfg j)
        = (some (stateBefore w s cfg (j + c + 1)), retrySegment w s cfg c j) := by
  intro c
  induction c with
  | zero =>
    intro fuel j hf _ hok
    cases fuel with
    | zero => omega
    | succ fuel =>
      simp only [Nat.add_zero] at hok
      have hok2 : (runStage w s j (stateBefore w s cfg j)).2.err = none := hok
      rw [retryLoop]
      simp only [hok2]
      rfl
  | succ c ih =>
    intro fuel j hf hfail hok
    cases fuel with
    | zero => omega
    | succ fuel =>
      have hj := hfail j (le_refl j) (by omega)
      have hj2 : (runStage w s j (stateBefore w s cfg j)).2.err ≠ none := hj
      rw [retryLoop]
      cases herr : (runStage w s j (stateBefore w s cfg j)).2.err with
      | none => exact absurd herr hj2
      | some e =>
        simp only
        have hnext : (runStage w s j (stateBefore w s cfg j)).1 = stateBefore w s cfg (j + 1) := rfl
        rw [hnext]
        rw [ih fuel (j + 1) (by omega) (fun i h1 h2 => hfail i (by omega) (by omega))
          (by rwa [show j + 1 + c = j + (c + 1) by omega])]
        rw [show j + 1 + c + 1 = j + (c + 1) + 1 by omega]
        rfl

/-- C1 (retry harness).  For each of the three retry loops of `RunE` (`s` is
its stage) and every `n`: if the stage function returns an error on its first
`n` invocations and `nil` on invocation `n + 1`, then the loop, allowed more
than `n` iterations, is left by `break`; what it did is: each failed invocation
followed by a sleep of 5 seconds, then the successful invocation.  So the stage
function is invoked exactly `n + 1` times, there are exactly `n` sleeps, all of
5 seconds, and the last thing done is the successful invocation, with no sleep
after it. -/
theorem retry_harness (w : World) (s : Stage) (cfg : Config) (n fuel : Nat)
    (hfail : ∀ j, j < n → (attempt w s cfg j).err ≠ none)
    (hok : (attempt w s cfg n).err = none)
    (hfuel : n < fuel) :
    (retryLoop w s fuel 0 cfg).1 = some (stateBefore w s cfg (n + 1)) ∧
    (retryLoop w s fuel 0 cfg).2 = retrySegment w s cfg n 0 ∧
    invocations (retryLoop w s fuel 0 cfg).2 = n + 1 ∧
    retrySleeps (retryLoop w s fuel 0 cfg).2 = List.replicate n 5 ∧
    (retryLoop w s fuel 0 cfg).2.getLast? = some (RunEvent.invoke s (attempt w s cfg n)) := by
  have h := retryLoop_segment w s cfg n fuel 0 hfuel (fun i _ hi => hfail i (by omega))
    (by rwa [Nat.zero_add])
  have h0 : stateBefore w s cfg 0 = cfg := rfl
  rw [h0] at h
  rw [h]
  refine ⟨by simp, rfl, invocations_retrySegment w s cfg n 0, retrySleeps_retrySegment w s cfg n 0,
    ?_⟩
  have := getLast_retrySegment w s cfg n 0
  rwa [Nat.zero_add] at this

/-- C1 at a concrete input: an HTTP stage whose first target cannot be reached
on the first two invocations and answers on the third is invoked exactly three
times, with two sleeps of 5 seconds. -/
theorem retry_harness_witness :
    invocations (retryLoop (worldHttpUpAfter 2) Stage.http 3 0 (httpConfig "http://a")).2 = 2 + 1 ∧
    retrySleeps (retryLoop (worldHttpUpAfter 2) Stage.http 3 0 (httpConfig "http://a")).2
      = List.replicate 2 5 :=
  ⟨(retry_harness (worldHttpUpAfter 2) Stage.http (httpConfig "http://a") 2 3
      (by decide) (by decide) (by decide)).2.2.1,
   (retry_harness (worldHttpUpAfter 2) Stage.http (httpConfig "http://a") 2 3
      (by decide) (by decide) (by decide)).2.2.2.1⟩

/-! ## Order of the stages -/

theorem phaseAfter_append :
    ∀ (a b : List RunEvent) (p : Nat),
      phaseAfter p (a ++ b) = (phaseAfter p a).bind (fun q => phaseAfter q b) := by
  intro a
  induction a with
  | nil => intro b p; rfl
  | cons x a ih =>
    intro b p
    cases x with
    | sleep d => exact ih b p
    | invoke s run =>
      simp only [List.cons_append, phaseAfter]
      by_cases hs : s.rank = p
      · simp only [if_pos hs]
        exact ih b _
      · simp only [if_neg hs]
        rfl

theorem phaseAfter_mono :
    ∀ (t : List RunEvent) (p q : Nat), phaseAfter p t = some q → p ≤ q := by
  intro t
  induction t with
  | nil => intro p q h; simp [phaseAfter] at h; omega
  | cons x t ih =>
    intro p q h
    cases x with
    | sleep d => exact ih p q h
    | invoke s run =>
      simp only [phaseAfter] at h
      by_cases hs : s.rank = p
      · simp only [if_pos hs] at h
        have := ih _ q h
        by_cases he : run.err = none
        · simp only [if_pos he] at this; omega
        · simp only [if_neg he] at this; exact this
      · simp only [if_neg hs] at h
        cases h

theorem phaseAfter_rank_ge :
    ∀ (t : List RunEvent) (p q : Nat), phaseAfter p t = some q →
      ∀ s run, RunEvent.invoke s run ∈ t → p ≤ s.rank := by
  intro t
  induction t with
  | nil => intro p q _ s run hm; simp at hm
  | cons x t ih =>
    intro p q h s run hm
    cases x with
    | sleep d =>
      have hm2 : RunEvent.invoke s run ∈ t := by simpa using hm
      exact ih p q h s run hm2
    | invoke s1 run1 =>
      simp only [phaseAfter] at h
      by_cases hs : s1.rank = p
      · simp only [if_pos hs] at h
        rcases List.mem_cons.mp hm with heq | hm2
        · cases heq
          omega
        · have := ih _ q h s run hm2
          by_cases he : run1.err = none
          · simp only [if_pos he] at this; omega
          · simp only [if_neg he] at this; exact this
      · simp only [if_neg hs] at h
        cases h

theorem phaseAfter_at :
    ∀ (pre : List RunEvent) (p q : Nat) (s : Stage) (run : StageRun) (post : List RunEvent),
      phaseAfter p (pre ++ RunEvent.invoke s run :: post) = some q →
      phaseAfter (if run.err = none then s.rank + 1 else s.rank) post = some q ∧
      ∀ r, p ≤ r → r < s.rank →
        ∃ s1 run1, s1.rank = r ∧ run1.err = none ∧ RunEvent.invoke s1 run1 ∈ pre := by
  intro pre
  induction pre with
  | nil =>
    intro p q s run post h
    simp only [List.nil_append, phaseAfter] at h
    by_cases hs : s.rank = p
    · simp only [if_pos hs] at h
      rw [hs]
      exact ⟨h, fun r h1 h2 => by omega⟩
    · simp only [if_neg hs] at h
      cases h
  | cons x pre ih =>
    intro p q s run post h
    cases x with
    | sleep d =>
      obtain ⟨h1, h2⟩ := ih p q s run post h
      refine ⟨h1, fun r hr1 hr2 => ?_⟩
      obtain ⟨s1, run1, ha, hb, hc⟩ := h2 r hr1 hr2
      exact ⟨s1, run1, ha, hb, List.mem_cons_of_mem _ hc⟩
    | invoke s0 run0 =>
      simp only [List.cons_append, phaseAfter] at h
      by_cases hs : s0.rank = p
      · simp only [if_pos hs] at h
        obtain ⟨h1, h2⟩ := ih _ q s run post h
        refine ⟨h1, fun r hr1 hr2 => ?_⟩
        by_cases he : run0.err = none
        · simp only [if_pos he] at h2
          by_cases hrp : r = p
          · exact ⟨s0, run0, by omega, he, List.mem_cons_self _ _⟩
          · obtain ⟨s1, run1, ha, hb, hc⟩ := h2 r (by omega) hr2
            exact ⟨s1, run1, ha, hb, List.mem_cons_of_mem _ hc⟩
        · simp only [if_neg he] at h2
          obtain ⟨s1, run1, ha, hb, hc⟩ := h2 r hr1 hr2
          exact ⟨s1, run1, ha, hb, List.mem_cons_of_mem _ hc⟩
      · simp only [if_neg hs] at h
        cases h

theorem phaseAfter_retryLoop (w : World) (s : Stage) :
    ∀ fuel j cfg,
      phaseAfter s.rank (retryLoop w s fuel j cfg).2
        = some (if (retryLoop w s fuel j cfg).1 = none then s.rank else s.rank + 1) := by
  intro fuel
  induction fuel with
  | zero => intro j cfg; rfl
  | succ fuel ih =>
    intro j cfg
    rw [retryLoop]
    cases herr : (runStage w s j cfg).2.err with
    | none =>
      simp only [phaseAfter, herr, if_true]
      simp
    | some e =>
      simp only [phaseAfter, herr, if_true]
      simp only [reduceCtorEq, if_false]
      exact ih (j + 1) _

theorem phaseAfter_RunE (w : World) (fuel : Nat) (cfg : Config) :
    ∃ q, phaseAfter 0 (RunE w fuel cfg).2 = some q := by
  unfold RunE
  have h1 := phaseAfter_retryLoop w .http fuel 0 cfg
  rcases hr1 : retryLoop w .http fuel 0 cfg with ⟨r1, t1⟩
  rw [hr1] at h1
  cases r1 with
  | none => exact ⟨_, h1⟩
  | some cfg1 =>
    have h1a : phaseAfter 0 t1 = some 1 := h1
    simp only
    have h2 := phaseAfter_retryLoop w .postgres fuel 0 cfg1
    rcases hr2 : retryLoop w .postgres fuel 0 cfg1 with ⟨r2, t2⟩
    rw [hr2] at h2
    cases r2 with
    | none =>
      simp only
      rw [phaseAfter_append, h1a]
      exact ⟨_, h2⟩
    | some cfg2 =>
      have h2a : phaseAfter 1 t2 = some 2 := h2
      have h12 : phaseAfter 0 (t1 ++ t2) = some 2 := by
        rw [phaseAfter_append, h1a]
        exact h2a
      simp only
      have h3 := phaseAfter_retryLoop w .mongo fuel 0 cfg2
      rcases hr3 : retryLoop w .mongo fuel 0 cfg2 with ⟨r3, t3⟩
      rw [hr3] at h3
      cases r3 with
      | none =>
        simp only
        rw [phaseAfter_append, h12]
        exact ⟨_, h3⟩
      | some cfg3 =>
        simp only
        rw [phaseAfter_append, h12]
        exact ⟨_, h3⟩

/-- C2 (orchestrator order).  In every finite initial segment of every
execution of `RunE` (the first `k` things done, under any iteration allowance
`fuel`, in any world):

* an invocation of `validatePostgresDBConnection` is preceded by an invocation
  of `validateHTTPReadinessCheckCommands` that returned `nil`;
* an invocation of `validateMongoDBConnection` is preceded by an invocation of
  `validatePostgresDBConnection` that returned `nil`;
* after an invocation of a stage function that returned `nil`, that stage
  function is not invoked again;
* the invocations come in the order HTTP, Postgres, Mongo: an invocation is
  never followed by an invocation of an earlier stage. -/
theorem orchestrator_order (w : World) (fuel : Nat) (cfg : Config) (k : Nat) :
    (∀ pre run post, (RunE w fuel cfg).2.take k = pre ++ RunEvent.invoke .postgres run :: post →
      ∃ r, r.err = none ∧ RunEvent.invoke .http r ∈ pre) ∧
    (∀ pre run post, (RunE w fuel cfg).2.take k = pre ++ RunEvent.invoke .mongo run :: post →
      ∃ r, r.err = none ∧ RunEvent.invoke .postgres r ∈ pre) ∧
    (∀ pre s run post, (RunE w fuel cfg).2.take k = pre ++ RunEvent.invoke s run :: post →
      run.err = none → ∀ r, RunEvent.invoke s r ∉ post) ∧
    (∀ pre s run post s2 run2,
      (RunE w fuel cfg).2.take k = pre ++ RunEvent.invoke s run :: post →
      RunEvent.invoke s2 run2 ∈ post → s.rank ≤ s2.rank) := by
  obtain ⟨q, hq⟩ := phaseAfter_RunE w fuel cfg
  have hsplit : ∀ pre s run post,
      (RunE w fuel cfg).2.take k = pre ++ RunEvent.invoke s run :: post →
      phaseAfter 0 (pre ++ RunEvent.invoke s run :: (post ++ (RunE w fuel cfg).2.drop k))
        = some q := by
    intro pre s run post h
    have e : (RunE w fuel cfg).2
        = pre ++ RunEvent.invoke s run :: (post ++ (RunE w fuel cfg).2.drop k) := by
      conv_lhs => rw [← List.take_append_drop k (RunE w fuel cfg).2, h]
      simp
    rw [← e]
    exact hq
  refine ⟨?_, ?_, ?_, ?_⟩
  · intro pre run post h
    obtain ⟨_, h2⟩ := phaseAfter_at pre 0 q _ run _ (hsplit pre _ run post h)
    obtain ⟨s1, run1, ha, hb, hc⟩ := h2 0 (le_refl 0) (by decide)
    cases s1 with
    | http => exact ⟨run1, hb, hc⟩
    | postgres => cases ha
    | mongo => cases ha
  · intro pre run post h
    obtain ⟨_, h2⟩ := phaseAfter_at pre 0 q _ run _ (hsplit pre _ run post h)
    obtain ⟨s1, run1, ha, hb, hc⟩ := h2 1 (by decide) (by decide)
    cases s1 with
    | http => cases ha
    | postgres => exact ⟨run1, hb, hc⟩
    | mongo => cases ha
  · intro pre s run post h herr r hmem
    obtain ⟨h1, _⟩ := phaseAfter_at pre 0 q s run _ (hsplit pre s run post h)
    simp only [if_pos herr] at h1
    have := phaseAfter_rank_ge _ _ q h1 s r (List.mem_append_left _ hmem)
    omega
  · intro pre s run post s2 run2 h hmem
    obtain ⟨h1, _⟩ := phaseAfter_at pre 0 q s run _ (hsplit pre s run post h)
    have := phaseAfter_rank_ge _ _ q h1 s2 run2 (List.mem_append_left _ hmem)
    by_cases herr : run.err = none
    · simp only [if_pos herr] at this; omega
    · simp only [if_neg herr] at this; exact this

/-- C2 at a concrete input: in the run in which the HTTP stage succeeds at its
third invocation and the database stages are not configured, the invocation of
the Postgres stage is the sixth thing done, and a successful invocation of the
HTTP stage is among the five things before it. -/
theorem orchestrator_order_witness :
    ∃ r, r.err = none ∧
      RunEvent.invoke Stage.http r ∈
        ((RunE (worldHttpUpAfter 2) 3 (httpConfig "http://a")).2.take 7).take 5 :=
  (orchestrator_order (worldHttpUpAfter 2) 3 (httpConfig "http://a") 7).1
    (((RunE (worldHttpUpAfter 2) 3 (httpConfig "http://a")).2.take 7).take 5)
    ⟨none, []⟩
    [RunEvent.invoke Stage.mongo ⟨none, []⟩]
    (by decide)

/-- When each stage function succeeds at some invocation, `RunE` returns `nil`
(given enough iterations): the three loops are left one after the other. -/
theorem RunE_returns (w : World) (cfg : Config) (n1 n2 n3 fuel : Nat)
    (h1f : ∀ j, j < n1 → (attempt w .http cfg j).err ≠ none)
    (h1 : (attempt w .http cfg n1).err = none)
    (h2f : ∀ j, j < n2 →
      (attempt w .postgres (stateBefore w .http cfg (n1 + 1)) j).err ≠ none)
    (h2 : (attempt w .postgres (stateBefore w .http cfg (n1 + 1)) n2).err = none)
    (h3f : ∀ j, j < n3 →
      (attempt w .mongo
        (stateBefore w .postgres (stateBefore w .http cfg (n1 + 1)) (n2 + 1)) j).err ≠ none)
    (h3 : (attempt w .mongo
        (stateBefore w .postgres (stateBefore w .http cfg (n1 + 1)) (n2 + 1)) n3).err = none)
    (hfuel : n1 < fuel ∧ n2 < fuel ∧ n3 < fuel) :
    (RunE w fuel cfg).1 = some none ∧
    invocations (RunE w fuel cfg).2 = (n1 + 1) + (n2 + 1) + (n3 + 1) := by
  have a1 := retryLoop_segment w .http cfg n1 fuel 0 hfuel.1
    (fun i _ hi => h1f i (by omega)) (by rwa [Nat.zero_add])
  have a2 := retryLoop_segment w .postgres (stateBefore w .http cfg (n1 + 1)) n2 fuel 0 hfuel.2.1
    (fun i _ hi => h2f i (by omega)) (by rwa [Nat.zero_add])
  have a3 := retryLoop_segment w .mongo
    (stateBefore w .postgres (stateBefore w .http cfg (n1 + 1)) (n2 + 1)) n3 fuel 0 hfuel.2.2
    (fun i _ hi => h3f i (by omega)) (by rwa [Nat.zero_add])
  simp only [Nat.zero_add] at a1 a2 a3
  have e0 : ∀ s c, stateBefore w s c 0 = c := fun _ _ => rfl
  rw [e0] at a1 a2 a3
  have hinv : ∀ a b : List RunEvent, invocations (a ++ b) = invocations a + invocations b := by
    intro a b
    induction a with
    | nil => simp [invocations]
    | cons x a ih =>
      cases x with
      | invoke s1 r1 =>
        show invocations (a ++ b) + 1 = invocations a + 1 + invocations b
        omega
      | sleep d => exact ih
  unfold RunE
  rw [a1]
  simp only
  rw [a2]
  simp only
  rw [a3]
  simp only [hinv, invocations_retrySegment, true_and]

/-! ## Exhausted ping loop and release of resources -/

/-- C6 at the failing input: user `u`, password `p`; the open succeeds, all ten
pings are refused, the query then executes and reports one row.  The invocation
returns `nil` although no ping succeeded: the test `i == 10` of line 179 is
inside a loop that runs while `i < 10`, so the `return` of line 180 is never
reached and control falls through to the query. -/
theorem pg_nil_without_successful_ping :
    (validatePostgresDBConnection (pgConfig "disable") (pgNeverPingable 1)).2.err = none ∧
    sqlPings (validatePostgresDBConnection (pgConfig "disable") (pgNeverPingable 1)).2.trace
      = List.replicate 10 false ∧
    Event.sqlPing true ∉
      (validatePostgresDBConnection (pgConfig "disable") (pgNeverPingable 1)).2.trace := by
  decide

/-- C7 at the failing input: database `db`, user `u`, password `p`; the connect
succeeds and all ten pings fail.  The invocation returns `nil` although no ping
succeeded: the test `i == 10` of line 224 is never true inside the loop. -/
theorem mongo_nil_without_successful_ping :
    (validateMongoDBConnection mongoConfig mongoNeverPingable).err = none ∧
    mongoPings (validateMongoDBConnection mongoConfig mongoNeverPingable).trace
      = List.replicate 10 false ∧
    Event.mongoPing true ∉ (validateMongoDBConnection mongoConfig mongoNeverPingable).trace := by
  decide

/-- C10 at the failing input: database `db`, user `u`, password `p`; the
connect succeeds and the first ping succeeds.  The invocation returns `nil`
having connected a client and pinged it, and nothing else: the client is not
disconnected. -/
theorem mongo_client_not_released :
    validateMongoDBConnection mongoConfig (mongoPingableAfter 0)
      = ⟨none, [Event.mongoConnect "mongodb://u:p@mongodb.default.svc.cluster.local:27017/db" true,
                Event.mongoPing true]⟩ ∧
    Event.mongoDisconnect ∉ (validateMongoDBConnection mongoConfig (mongoPingableAfter 0)).trace := by
  decide

theorem pingLoop_events (ping : Nat → Option String) (ev : Bool → Event) :
    ∀ fuel i x, x ∈ (pingLoop ping ev fuel i).2 → (∃ b, x = ev b) ∨ x = Event.sleep 5 := by
  intro fuel
  induction fuel with
  | zero => intro i x hx; simp [pingLoop] at hx
  | succ fuel ih =>
    intro i x hx
    unfold pingLoop at hx
    by_cases hi : i < 10
    · rw [if_pos hi] at hx
      cases hp : ping i with
      | none =>
        simp only [hp, List.mem_singleton] at hx
        exact Or.inl ⟨true, hx⟩
      | some e =>
        have hne : ¬ i = 10 := by omega
        simp only [hp, if_neg hne, List.mem_cons] at hx
        rcases hx with hx | hx | hx
        · exact Or.inl ⟨false, hx⟩
        · exact Or.inr hx
        · exact ih (i + 1) x hx
    · rw [if_neg hi] at hx
      simp at hx

/-- No invocation of the Mongo stage ever disconnects its client. -/
theorem mongo_never_disconnects (cfg : Config) (env : MongoEnv) :
    Event.mongoDisconnect ∉ (validateMongoDBConnection cfg env).trace := by
  rcases mongo_trace_cases cfg env with h | ⟨uri, h⟩ | ⟨uri, h⟩
  · rw [h]; simp
  · rw [h]; simp
  · rw [h]
    intro hm
    rcases List.mem_cons.mp hm with hm | hm
    · cases hm
    · rcases pingLoop_events env.ping Event.mongoPing 10 0 _ hm with ⟨b, hb⟩ | hb
      · cases hb
      · cases hb

/-- An invocation of the Postgres stage that opened the database handle closes
it before it returns (line 168): `db.Close()` is the last thing it does. -/
theorem pg_handle_closed (cfg : Config) (env : PgEnv) (dsn : String)
    (h : Event.sqlOpen dsn true ∈ (validatePostgresDBConnection cfg env).2.trace) :
    (validatePostgresDBConnection cfg env).2.trace.getLast? = some Event.sqlClose := by
  rcases pg_trace_cases cfg env with h1 | ⟨d1, h1⟩ | ⟨d1, h1⟩
  · rw [h1] at h; simp at h
  · rw [h1] at h; simp at h
  · rw [h1]
    rw [show Event.sqlOpen d1 true ::
        ((pingLoop env.ping Event.sqlPing 10 0).2 ++ ((pgVerify env).2 ++ [Event.sqlClose]))
        = (Event.sqlOpen d1 true ::
          ((pingLoop env.ping Event.sqlPing 10 0).2 ++ (pgVerify env).2)) ++ [Event.sqlClose] by simp]
    exact List.getLast?_concat _

theorem httpCheckLoop_closes (env : HttpEnv) :
    ∀ (segs : List String) (k : Nat) (d : List Event),
      (∀ x, x ∈ d → x ∈ (httpCheckLoop env segs k d).trace) ∧
      (∀ j ok, Event.httpReadBody j ok ∈ (httpCheckLoop env segs k d).trace →
        Event.httpReadBody j ok ∈ d ∨ Event.httpBodyClose j ∈ (httpCheckLoop env segs k d).trace) := by
  intro segs
  induction segs with
  | nil =>
    intro k d
    exact ⟨fun x hx => hx, fun j ok h => Or.inl h⟩
  | cons seg rest ih =>
    intro k d
    cases hg : env.get k (trimSpace seg) with
    | transportError e =>
      rw [httpCheckLoop_transport env seg rest k d e hg]
      refine ⟨fun x hx => List.mem_cons_of_mem _ hx, fun j ok h => ?_⟩
      rcases List.mem_cons.mp h with h | h
      · cases h
      · exact Or.inl h
    | response st body =>
      cases body with
      | fail sofar e =>
        rw [httpCheckLoop_read_fail env seg rest k d st sofar e hg]
        refine ⟨fun x hx => by simp [hx], fun j ok h => ?_⟩
        simp only [List.mem_cons, reduceCtorEq, false_or, Event.httpReadBody.injEq] at h
        rcases h with ⟨hj, _⟩ | h
        · right
          rw [hj]
          simp
        · exact Or.inl h
      | ok b =>
        rw [httpCheckLoop_read_ok env seg rest k d st b hg]
        obtain ⟨ih1, ih2⟩ := ih (k + 1) (Event.httpBodyClose k :: d)
        refine ⟨fun x hx => ?_, fun j ok h => ?_⟩
        · exact List.mem_cons_of_mem _ (List.mem_cons_of_mem _
            (ih1 x (List.mem_cons_of_mem _ hx)))
        · simp only [List.mem_cons, reduceCtorEq, false_or, Event.httpReadBody.injEq] at h
          rcases h with ⟨hj, _⟩ | h
          · right
            rw [hj]
            exact List.mem_cons_of_mem _ (List.mem_cons_of_mem _
              (ih1 _ (List.mem_cons_self _ _)))
          · rcases ih2 j ok h with h2 | h2
            · simp only [List.mem_cons, reduceCtorEq, false_or] at h2
              exact Or.inl h2
            · exact Or.inr (List.mem_cons_of_mem _ (List.mem_cons_of_mem _ h2))

/-- An invocation of the HTTP stage closes, before it returns, the body of
every response it obtained (line 131). -/
theorem http_bodies_closed (cfg : Config) (env : HttpEnv) (j : Nat) (ok : Bool)
    (h : Event.httpReadBody j ok ∈ (validateHTTPReadinessCheckCommands cfg env).trace) :
    Event.httpBodyClose j ∈ (validateHTTPReadinessCheckCommands cfg env).trace := by
  unfold validateHTTPReadinessCheckCommands at h ⊢
  by_cases hne : cfg.httpReadinessURLs.length ≠ 0
  · simp only [if_pos hne] at h ⊢
    rcases (httpCheckLoop_closes env _ 0 []).2 j ok h with h2 | h2
    · simp at h2
    · exact h2
  · simp only [if_neg hne] at h
    simp at h

/-! ## The case table behind `strings.ToLower` -/

/-- The two comparisons of the `switch` of lines 155-160 do not depend on the
part of the case table that `toLowerRune` leaves out: they have the same
outcome under every rune mapping `low` that agrees with `toLowerRune` on ASCII
and sends no rune outside ASCII to a letter of `true` or `false`. -/
theorem toLower_comparisons_table_independent (low : Char → Char)
    (hascii : ∀ c : Char, c.toNat < 128 → low c = toLowerRune c)
    (hother : ∀ c : Char, 128 ≤ c.toNat → low c ∉ ['t', 'r', 'u', 'e', 'f', 'a', 'l', 's'])
    (s : String) :
    (String.mk (s.data.map low) = "true" ↔ toLower s = "true") ∧
    (String.mk (s.data.map low) = "false" ↔ toLower s = "false") := by
  have key : ∀ c x, x ∈ ['t', 'r', 'u', 'e', 'f', 'a', 'l', 's'] →
      (low c = x ↔ toLowerRune c = x) := by
    intro c x hx
    by_cases hc : c.toNat < 128
    · rw [hascii c hc]
    · have hc2 : 128 ≤ c.toNat := by omega
      have hx128 : x.toNat < 128 := by
        simp only [List.mem_cons, List.mem_singleton, List.not_mem_nil, or_false] at hx
        rcases hx with rfl | rfl | rfl | rfl | rfl | rfl | rfl | rfl <;> decide
      have hxi : x ≠ 'i' ∧ x ≠ 'k' := by
        simp only [List.mem_cons, List.mem_singleton, List.not_mem_nil, or_false] at hx
        rcases hx with rfl | rfl | rfl | rfl | rfl | rfl | rfl | rfl <;> decide
      constructor
      · intro h
        exact absurd (h ▸ hx) (hother c hc2)
      · intro h
        exfalso
        unfold toLowerRune at h
        have hup : ¬ ('A'.toNat ≤ c.toNat ∧ c.toNat ≤ 'Z'.toNat) := by
          rintro ⟨_, h2⟩
          have : 'Z'.toNat = 90 := by decide
          omega
        rw [if_neg hup] at h
        by_cases h1 : c.toNat = 0x130
        · rw [if_pos h1] at h
          exact hxi.1 h.symm
        · rw [if_neg h1] at h
          by_cases h2 : c.toNat = 0x212A
          · rw [if_pos h2] at h
            exact hxi.2 h.symm
          · rw [if_neg h2] at h
            rw [h] at hc2
            omega
  have ht : (s.data.map low = "true".data ↔ s.data.map toLowerRune = "true".data) :=
    map_eq_iff_of_pointwise s.data _ (fun c x hx => key c x (by
      have : x = 't' ∨ x = 'r' ∨ x = 'u' ∨ x = 'e' := by simpa using hx
      rcases this with rfl | rfl | rfl | rfl <;> decide))
  have hf : (s.data.map low = "false".data ↔ s.data.map toLowerRune = "false".data) :=
    map_eq_iff_of_pointwise s.data _ (fun c x hx => key c x (by
      have : x = 'f' ∨ x = 'a' ∨ x = 'l' ∨ x = 's' ∨ x = 'e' := by simpa using hx
      rcases this with rfl | rfl | rfl | rfl | rfl <;> decide))
  unfold toLower
  constructor
  · constructor
    · intro h
      exact congrArg String.mk (ht.mp (congrArg String.data h))
    · intro h
      exact congrArg String.mk (ht.mpr (congrArg String.data h))
  · constructor
    · intro h
      exact congrArg String.mk (hf.mp (congrArg String.data h))
    · intro h
      exact congrArg String.mk (hf.mpr (congrArg String.data h))

/-- What does hold of a `nil` result of a configured Postgres stage: the open
succeeded, and the verification query executed without error and reported a
number of rows other than 0. -/
theorem pg_nil_requires_open_and_rows (cfg : Config) (env : PgEnv)
    (hu : cfg.postgresDBUser ≠ "") (hp : cfg.postgresDBPassword ≠ "")
    (hnil : (validatePostgresDBConnection cfg env).2.err = none) :
    env.sqlOpen (psqlInfo (validatePostgresDBConnection cfg env).1) = none ∧
    ∃ n : Int, n ≠ 0 ∧ env.exec postgresDefaultQuery = .result (.ok n) := by
  have hact := active_pg cfg hu hp
  have h1 : (validatePostgresDBConnection cfg env).1 =
      { cfg with postgresDBSSLMode := normalizeSSLMode cfg.postgresDBSSLMode } := by
    unfold validatePostgresDBConnection
    rw [if_pos hact]
    simp only
    split <;> try split
    all_goals rfl
  cases hopen : env.sqlOpen (psqlInfo (validatePostgresDBConnection cfg env).1) with
  | some e =>
    exfalso
    rw [h1] at hopen
    unfold validatePostgresDBConnection at hnil
    rw [if_pos hact] at hnil
    simp only [hopen] at hnil
    cases hnil
  | none =>
    refine ⟨rfl, ?_⟩
    rw [pg_trace_of_open cfg env hact hopen] at hnil
    simp only at hnil
    unfold pgVerify at hnil
    cases hexec : env.exec postgresDefaultQuery with
    | error e => rw [hexec] at hnil; cases hnil
    | result r =>
      cases r with
      | error e => rw [hexec] at hnil; cases hnil
      | ok n =>
        rw [hexec] at hnil
        by_cases hn : n = 0
        · simp only [hn, if_true] at hnil
          cases hnil
        · exact ⟨n, hn, rfl⟩

end SynopsysInit
